import Mathlib

/-!
# Verification of the OTA reconciliation engine (`ota.py`)

Shallow embedding of the over-the-air update utility. The source is a
single MicroPython module with three classes:

* `OTAUpdater`        — the orchestrator (`fetch_updates`, `_check_for_updates`,
                        `updated`, `_check_and_apply_updates`);
* `OTAFileMetadata`   — per-file state and the fetch/validate/promote protocol
                        (`update_latest`, `set_current_to_latest`,
                        `new_version_available`, `mem_check`, `to_json`);
* `OTADatabase`       — the persisted version store (`read`, `write`, `create`,
                        `entry_exists`, `update`, `delete`).

Modelling conventions:

* File contents are byte lists (`List Nat`); the local filesystem is a total
  function from names to optional contents.
* The external collaborators are parameters: `sha1_hex` abstracts
  `hashlib.sha1(...).digest()` rendered as a hex string, and `valid_code`
  abstracts the `compile`-based syntax oracle. Both are arbitrary functions,
  matching their black-box treatment.
* Each network interaction is driven by a `FetchEnv` input: the free-memory
  values observed by the two `mem_check` calls and the decoded remote
  response. `requests.get(...).json()` outcomes are the four source cases:
  a `ValueError` while decoding, a `MemoryError`, a decoded object without a
  `sha` key, and a decoded object with `sha` and (base64-decoded) `content`.
* Python exceptions are threaded explicitly as an `Option Err` component of
  every result; a `some` error means the corresponding Python call raised.
* The persisted container `versions.json` is kept as a separate component
  (`Option Store`, `none` meaning the file does not exist); the source only
  ever manipulates it whole-document, exactly as modelled.
* `machine.reset()` never returns on the device, so the outcome of an entry
  point is an inductive: it either returns a boolean, resets the device
  (after the `utime.sleep(1)` delay), or raises.
-/

/-- Byte strings: the contents of files and downloaded payloads. -/
abbrev Bytes := List Nat

/-- The local flat filesystem (MicroPython has a single directory here):
a map from file name to optional byte content. -/
abbrev FS := String → Option Bytes

/-- `open(name, "w"); write(content)`: (over)write one file. -/
def FS.write (fs : FS) (name : String) (c : Bytes) : FS :=
  fun k => if k = name then some c else fs k

/-- `os.rename(src, dst)` assuming `src` exists: `dst` receives the content of
`src`, `src` disappears, everything else is untouched. Callers check
existence of `src`; this helper is only applied when it does. -/
def FS.renameF (fs : FS) (src dst : String) : FS :=
  fun k => if k = dst then fs src else if k = src then none else fs k

/-- The Python exceptions that the source raises or runs into.
`noMemory` is `OTANoMemory`, `willNotValidate` is `OTANewFileWillNotValidate`,
`typeError` is the `TypeError` from `os.rename(None, ...)`, `osError` the
`OSError` from renaming a missing source, `duplicateEntry` the `RuntimeError`
in `OTADatabase.create`, and `storeUninitialized` the `AttributeError` from
`None.update(...)` in `OTADatabase.update` (the spec's name for it). -/
inductive Err
  | noMemory
  | willNotValidate
  | typeError
  | osError
  | duplicateEntry
  | storeUninitialized
deriving DecidableEq

/-- Decoded outcome of `requests.get(self.url, headers=...).json()`:
`jsonError` is a `ValueError` during decoding, `memoryError` a `MemoryError`
raised by the request, `noSha` a decoded object without a `'sha'` key, and
`ok sha content` a decoded object carrying the remote fingerprint and the
base64-decoded file content. -/
inductive RemoteResponse
  | jsonError
  | memoryError
  | noSha
  | ok (sha : String) (content : Bytes)
deriving DecidableEq

/-- The environment of one `update_latest` call: the free-memory figures the
two `mem_check` calls observe (`gc.mem_free()` before and after the request)
and the remote response. -/
structure FetchEnv where
  memBefore : Nat
  memAfter : Nat
  response : RemoteResponse
deriving DecidableEq

/-- `OTAFileMetadata.OTA_MINIMUM_MEMORY`. -/
def OTA_MINIMUM_MEMORY : Nat := 32000

/-- `OTAFileMetadata.LATEST_FILE_PREFIX` (the staging-name marker). -/
def LATEST_FILE_PFX : String := "__latest__"

/-- `OTAFileMetadata.ERROR_FILE_PREFIX` (the quarantine-name marker). -/
def ERROR_FILE_PFX : String := "__error__"

/-- `OTAFileMetadata.BACKUP_FILE_PREFIX` (the backup-name marker). -/
def BACKUP_FILE_PFX : String := "__backup__"

/-- The mutable attributes of one `OTAFileMetadata` object. `current` starts
as the string returned by `calculate_github_sha` but `set_current_to_latest`
assigns `self.current = self.latest`, whose Python type is `str` or `None`,
so both fingerprints are `Option String` here. -/
structure OTAFileMetadata where
  filename : String
  url : String
  debug : Bool
  save_backups : Bool
  latest : Option String
  latest_file : Option String
  current : Option String
deriving DecidableEq

/-- `calculate_github_sha`'s hashed payload: `"blob %u\0" % len(data)`
followed by the data itself, as bytes (the header is pure ASCII, so its
characters are its bytes). -/
def blobPayload (data : Bytes) : Bytes :=
  (("blob " ++ toString data.length).data.map Char.toNat) ++ 0 :: data

/-- `calculate_github_sha(filename)`: empty string when `uos.stat` fails
(the file does not exist), otherwise the hex digest of the blob payload of
the file's full byte content. `sha1_hex` abstracts
`hashlib.sha1` plus the hex rendering. -/
def calculate_github_sha (sha1_hex : Bytes → String) (fs : FS) (filename : String) : String :=
  match fs filename with
  | none => ""
  | some data => sha1_hex (blobPayload data)

/-- `OTAFileMetadata.new_version_available()`:
`bool(self.current != self.latest)`. -/
def new_version_available (m : OTAFileMetadata) : Bool :=
  m.current != m.latest

/-- Result of one `update_latest` call: the mutated object, the mutated
filesystem, the number of `requests.get` calls performed, and the raised
exception if any. -/
structure FileStep where
  meta : OTAFileMetadata
  fs : FS
  net : Nat
  err : Option Err

/-- `OTAFileMetadata.update_latest()`. `mem_check()` (a `gc.collect()`
followed by a floor test on `gc.mem_free()`) is inlined as the two
free-memory comparisons, exactly where the source calls it: once before
`requests.get` and once in the `else:` clause after a successful decode.
A `ValueError` from `.json()` is caught and printed; a `MemoryError` is
re-raised as `OTANoMemory`. With a `'sha'` key present, the remote
fingerprint is stored, and only when it differs from `current` is the
content written to the `__latest__` staging name and checked with the
syntax oracle; an invalid file is renamed to the `__error__` quarantine
name, the staged reference cleared, and `OTANewFileWillNotValidate`
raised. -/
def update_latest (valid_code : Bytes → Bool) (env : FetchEnv)
    (m : OTAFileMetadata) (fs : FS) : FileStep :=
  if env.memBefore < OTA_MINIMUM_MEMORY then ⟨m, fs, 0, some .noMemory⟩
  else
    match env.response with
    | .jsonError => ⟨m, fs, 1, none⟩
    | .memoryError => ⟨m, fs, 1, some .noMemory⟩
    | .noSha =>
        if env.memAfter < OTA_MINIMUM_MEMORY then ⟨m, fs, 1, some .noMemory⟩
        else ⟨m, fs, 1, none⟩
    | .ok sha content =>
        if env.memAfter < OTA_MINIMUM_MEMORY then ⟨m, fs, 1, some .noMemory⟩
        else
          let m1 := { m with latest := some sha }
          if new_version_available m1 then
            let lf := LATEST_FILE_PFX ++ m.filename
            let fs1 := FS.write fs lf content
            if valid_code content then
              ⟨{ m1 with latest_file := some lf }, fs1, 1, none⟩
            else
              ⟨{ m1 with latest_file := none },
                FS.renameF fs1 lf (ERROR_FILE_PFX ++ m.filename), 1,
                some .willNotValidate⟩
          else ⟨m1, fs, 1, none⟩

/-- Result of one `set_current_to_latest` call. -/
structure PromoteStep where
  meta : OTAFileMetadata
  fs : FS
  err : Option Err

/-- The backup step opening `OTAFileMetadata.set_current_to_latest()`:
guarded by `self.save_backups and bool(self.get_filename() in os.listdir())`,
the live file is renamed to its backup name. It happens first, so it happens
even when the subsequent rename raises. -/
def backupFs (m : OTAFileMetadata) (fs : FS) : FS :=
  if m.save_backups && (fs m.filename).isSome
  then FS.renameF fs m.filename (BACKUP_FILE_PFX ++ m.filename)
  else fs

/-- `OTAFileMetadata.set_current_to_latest()` continued: after the backup
step, `os.rename(self.latest_file, self.get_filename())`: with
`latest_file` equal to `None` this is a `TypeError`; with a staged name
that no longer exists on disk it is an `OSError`; otherwise the staged
file replaces the live one and `self.current = self.latest`. -/
def set_current_to_latest (m : OTAFileMetadata) (fs : FS) : PromoteStep :=
  match m.latest_file with
  | none => ⟨m, backupFs m fs, some .typeError⟩
  | some lf =>
      if ((backupFs m fs) lf).isSome then
        ⟨{ m with current := m.latest }, FS.renameF (backupFs m fs) lf m.filename, none⟩
      else ⟨m, backupFs m fs, some .osError⟩

/-- One value of the persisted container: the `{"latest": ..., "current": ...}`
object `OTAFileMetadata.to_json` produces (both fields can be JSON `null`). -/
structure DBEntry where
  latest : Option String
  current : Option String
deriving DecidableEq

/-- The decoded persisted container `versions.json`: a JSON object, i.e. an
association list keyed by filename. -/
abbrev Store := List (String × DBEntry)

/-- `OTAFileMetadata.to_json()`, split into the single key and its value. -/
def to_json (m : OTAFileMetadata) : String × DBEntry :=
  (m.filename, ⟨m.latest, m.current⟩)

/-- Key lookup in the decoded container (`data[key]` access pattern the
source uses via iteration over `data.keys()`). -/
def storeLookup (d : Store) (k : String) : Option DBEntry :=
  match d with
  | [] => none
  | (k1, v) :: rest => if k1 = k then some v else storeLookup rest k

/-- `OTADatabase.entry_exists(filename)`: read the container and scan its
keys (a missing or empty container has no entries). -/
def entryExists (p : Option Store) (k : String) : Bool :=
  match p with
  | none => false
  | some d => d.any (fun kv => kv.1 == k)

/-- Python's `dict.update({k: v})`: replace the value at `k` if the key is
present, otherwise append the new pair. -/
def dict_update (d : Store) (k : String) (v : DBEntry) : Store :=
  if d.any (fun kv => kv.1 == k) then
    d.map (fun kv => if kv.1 == k then (kv.1, v) else kv)
  else d ++ [(k, v)]

/-- `OTADatabase.delete(filename)`: re-read, and only when the entry exists
remove it and rewrite the container (a JSON object has unique keys, so
removing every pair with the key equals `del data[filename]`). -/
def db_delete (p : Option Store) (k : String) : Option Store :=
  match p with
  | none => none
  | some d =>
      if d.any (fun kv => kv.1 == k) then some (d.filter (fun kv => kv.1 != k))
      else some d

/-- `OTADatabase.update(new_item)`: `data = self.read()`, then
`self.delete(filename)` (whose own read-modify-write is immediately
overwritten by the final write below and therefore only matters when the
final write never happens), then `data.update(new_item)` — an
`AttributeError` when `read` returned `None`, i.e. no persisted container
exists — and `self.write(data)`. -/
def db_update (p : Option Store) (k : String) (v : DBEntry) : Option Store × Option Err :=
  let p1 := db_delete p k
  match p with
  | none => (p1, some .storeUninitialized)
  | some d => (some (dict_update d k v), none)

/-- `OTADatabase.create(item)`: raise `RuntimeError` when an entry already
exists; otherwise read the container (`None` or an empty object becomes
`{}`), insert the pair and rewrite. -/
def db_create (p : Option Store) (k : String) (v : DBEntry) : Option Store × Option Err :=
  if entryExists p k then (p, some .duplicateEntry)
  else
    let d := match p with
             | none => []
             | some d => d
    (some (dict_update d k v), none)

/-- The per-file loop of `OTADatabase.__init__`: with `guard = true` (the
database file existed) each entry is created only if absent; with
`guard = false` every entry is created unconditionally, `create`'s own
duplicate check raising on a repeated filename. -/
def db_init_loop (guard : Bool) : List OTAFileMetadata → Option Store → Option Store × Option Err
  | [], p => (p, none)
  | m :: ms, p =>
      if guard && entryExists p m.filename then db_init_loop guard ms p
      else
        let r := db_create p m.filename ⟨m.latest, m.current⟩
        match r.2 with
        | some e => (r.1, some e)
        | none => db_init_loop guard ms r.1

/-- `OTADatabase.__init__` (its container-syncing part):
branch on `db_file_exists()`. -/
def db_init (files : List OTAFileMetadata) (p : Option Store) : Option Store × Option Err :=
  db_init_loop p.isSome files p

/-- Result of the orchestrator's fetch phase. -/
structure FetchOut where
  files : List OTAFileMetadata
  fs : FS
  net : Nat
  err : Option Err

/-- The `for ndx, _ in enumerate(self.files_obj)` loop inside
`OTAUpdater.fetch_updates`: each file's `update_latest` runs in order over
one `FetchEnv` input each; the first raised exception terminates the loop,
leaving the remaining objects untouched. -/
def fetch_loop (valid_code : Bytes → Bool) :
    List OTAFileMetadata → List FetchEnv → FS → FetchOut
  | [], _, fs => ⟨[], fs, 0, none⟩
  | ms, [], fs => ⟨ms, fs, 0, none⟩
  | m :: ms, env :: envs, fs =>
      let r := update_latest valid_code env m fs
      match r.err with
      | some e => ⟨r.meta :: ms, r.fs, r.net, some e⟩
      | none =>
          let rest := fetch_loop valid_code ms envs r.fs
          ⟨r.meta :: rest.files, rest.fs, r.net + rest.net, rest.err⟩

/-- `OTAUpdater.fetch_updates()`: the loop above wrapped in
`try: ... except OTANewFileWillNotValidate: print(...)` — only the
validation exception is caught (and only printed); anything else
propagates. -/
def fetch_updates (valid_code : Bytes → Bool)
    (files : List OTAFileMetadata) (envs : List FetchEnv) (fs : FS) : FetchOut :=
  let r := fetch_loop valid_code files envs fs
  match r.err with
  | some .willNotValidate => ⟨r.files, r.fs, r.net, none⟩
  | _ => r

/-- Result of the orchestrator's compare/promote phase. -/
structure PromoteOut where
  files : List OTAFileMetadata
  fs : FS
  store : Option Store
  changed : Bool
  err : Option Err

/-- The `for entry in self.files_obj` loop of
`OTAUpdater._check_for_updates`: for each entry with
`new_version_available()`, run `set_current_to_latest()` and
`self.db.update(entry.to_json())` and set `files_updated_flag`; a raised
exception terminates the loop (when it raises, the flag value is never
observed by the caller, since the exception propagates). -/
def promote_loop : List OTAFileMetadata → FS → Option Store → PromoteOut
  | [], fs, p => ⟨[], fs, p, false, none⟩
  | m :: ms, fs, p =>
      if new_version_available m then
        let s := set_current_to_latest m fs
        match s.err with
        | some e => ⟨s.meta :: ms, s.fs, p, false, some e⟩
        | none =>
            let r := db_update p s.meta.filename ⟨s.meta.latest, s.meta.current⟩
            match r.2 with
            | some e => ⟨s.meta :: ms, s.fs, r.1, false, some e⟩
            | none =>
                let rest := promote_loop ms s.fs r.1
                ⟨s.meta :: rest.files, rest.fs, rest.store, true, rest.err⟩
      else
        let rest := promote_loop ms fs p
        ⟨m :: rest.files, rest.fs, rest.store, rest.changed, rest.err⟩

/-- Result of a full reconciliation pass. -/
structure PassOut where
  files : List OTAFileMetadata
  fs : FS
  store : Option Store
  net : Nat
  changed : Bool
  err : Option Err

/-- `OTAUpdater._check_for_updates()`: `fetch_updates()` then the
compare/promote loop, returning `files_updated_flag`. -/
def check_for_updates (valid_code : Bytes → Bool) (files : List OTAFileMetadata)
    (envs : List FetchEnv) (fs : FS) (store : Option Store) : PassOut :=
  let f := fetch_updates valid_code files envs fs
  match f.err with
  | some e => ⟨f.files, f.fs, store, f.net, false, some e⟩
  | none =>
      let pr := promote_loop f.files f.fs store
      ⟨pr.files, pr.fs, pr.store, f.net, pr.changed, pr.err⟩

/-- The orchestrator's attributes relevant to behaviour:
`files_obj`, the persisted container the `db` object manipulates,
`update_interval_seconds` and `last_update_time`. -/
structure OTAUpdater where
  files : List OTAFileMetadata
  store : Option Store
  update_interval_seconds : Option Int
  last_update_time : Option Int
deriving DecidableEq

/-- How a call into the orchestrator ends: it returns a boolean to its
caller, it resets the device after `delaySeconds` of sleep (and therefore
never returns), or it raises an exception. -/
inductive Outcome
  | returns (b : Bool)
  | resets (delaySeconds : Nat)
  | raises (e : Err)
deriving DecidableEq

/-- Result of `updated` / `_check_and_apply_updates`. -/
structure RunOut where
  upd : OTAUpdater
  fs : FS
  net : Nat
  out : Outcome

/-- `OTAUpdater._check_and_apply_updates(current_time)`: on a true result of
`_check_for_updates` record `last_update_time`, `utime.sleep(1)` and
`machine.reset()` (no return); on a false result return `False`; a raised
exception propagates. -/
def check_and_apply (valid_code : Bytes → Bool) (envs : List FetchEnv)
    (u : OTAUpdater) (fs : FS) (now : Int) : RunOut :=
  let p := check_for_updates valid_code u.files envs fs u.store
  match p.err with
  | some e => ⟨{ u with files := p.files, store := p.store }, p.fs, p.net, .raises e⟩
  | none =>
      if p.changed then
        ⟨{ u with files := p.files, store := p.store, last_update_time := some now },
          p.fs, p.net, .resets 1⟩
      else
        ⟨{ u with files := p.files, store := p.store }, p.fs, p.net, .returns false⟩

/-- `OTAUpdater.updated(force_update)`: the gating policy over
`update_interval_seconds` and `last_update_time`, with `now` standing for
`utime.time()`. -/
def updated (valid_code : Bytes → Bool) (envs : List FetchEnv)
    (u : OTAUpdater) (fs : FS) (now : Int) (force_update : Bool) : RunOut :=
  if force_update then check_and_apply valid_code envs u fs now
  else
    match u.update_interval_seconds with
    | some ivl =>
        match u.last_update_time with
        | none => check_and_apply valid_code envs u fs now
        | some lt =>
            if ivl ≤ now - lt then check_and_apply valid_code envs u fs now
            else ⟨u, fs, 0, .returns false⟩
    | none => check_and_apply valid_code envs u fs now

/-- `OTAFileMetadata.__init__`: record the attributes (`current` is the hash
of any pre-existing local file, `latest`/`latest_file` start as `None`) and
then unconditionally call `self.update_latest()`. The user id and token
only feed the request header. -/
def OTAFileMetadata.init (sha1_hex : Bytes → String) (valid_code : Bytes → Bool)
    (env : FetchEnv) (repository filename : String) (debug save_backups : Bool)
    (fs : FS) : FileStep :=
  let m0 : OTAFileMetadata :=
    { filename := filename
      url := "https://api.github.com/repos/" ++ repository ++ "/contents/" ++ filename
      debug := debug
      save_backups := save_backups
      latest := none
      latest_file := none
      current := some (calculate_github_sha sha1_hex fs filename) }
  update_latest valid_code env m0 fs

/-- The nested `for repo in repo_dct: for file in repo_dct[repo]` loop of
`OTAUpdater.__init__`, flattened to a list of repository/filename pairs;
each constructed object consumes one `FetchEnv`. An exception raised by a
file's constructor propagates and aborts construction. -/
def init_files_loop (sha1_hex : Bytes → String) (valid_code : Bytes → Bool) :
    List (String × String) → List FetchEnv → Bool → Bool → FS → FetchOut
  | [], _, _, _, fs => ⟨[], fs, 0, none⟩
  | _ :: _, [], _, _, fs => ⟨[], fs, 0, none⟩
  | (repo, name) :: rest, env :: envs, debug, sb, fs =>
      let r := OTAFileMetadata.init sha1_hex valid_code env repo name debug sb fs
      match r.err with
      | some e => ⟨[r.meta], r.fs, r.net, some e⟩
      | none =>
          let out := init_files_loop sha1_hex valid_code rest envs debug sb r.fs
          ⟨r.meta :: out.files, out.fs, r.net + out.net, out.err⟩

/-- How `OTAUpdater.__init__` ends: normally, by raising, or (when
`update_on_initialization` found updates) by resetting the device. -/
inductive InitOutcome
  | constructed
  | raisedE (e : Err)
  | resetsDevice (delaySeconds : Nat)
deriving DecidableEq

/-- Result of `OTAUpdater.__init__`. -/
structure InitOut where
  upd : OTAUpdater
  fs : FS
  net : Nat
  out : InitOutcome

/-- `OTAUpdater.__init__`: construct every `OTAFileMetadata` (each performs
a fetch), build the `OTADatabase` (syncing the persisted container), set
`update_interval_seconds` from the minutes argument and `last_update_time`
to `None`, and finally, only if `update_on_initialization` is set, call
`self.updated(force_update=True)` (with its own inputs `envs2`). -/
def OTAUpdater.init (sha1_hex : Bytes → String) (valid_code : Bytes → Bool)
    (repo_files : List (String × String)) (envs envs2 : List FetchEnv)
    (update_interval_minutes : Option Int) (update_on_initialization debug save_backups : Bool)
    (fs : FS) (store : Option Store) (now : Int) : InitOut :=
  let ivl := update_interval_minutes.map (fun x => x * 60)
  let f := init_files_loop sha1_hex valid_code repo_files envs debug save_backups fs
  match f.err with
  | some e => ⟨⟨f.files, store, ivl, none⟩, f.fs, f.net, .raisedE e⟩
  | none =>
      let r := db_init f.files store
      match r.2 with
      | some e => ⟨⟨f.files, r.1, ivl, none⟩, f.fs, f.net, .raisedE e⟩
      | none =>
          let u : OTAUpdater := ⟨f.files, r.1, ivl, none⟩
          if update_on_initialization then
            let ru := updated valid_code envs2 u f.fs now true
            match ru.out with
            | .returns _ => ⟨ru.upd, ru.fs, f.net + ru.net, .constructed⟩
            | .resets d => ⟨ru.upd, ru.fs, f.net + ru.net, .resetsDevice d⟩
            | .raises e => ⟨ru.upd, ru.fs, f.net + ru.net, .raisedE e⟩
          else ⟨u, f.fs, f.net, .constructed⟩

/-! ## Derived predicates used in the statements -/

/-- The boolean gate of `updated(force_update)`: the reconciliation pass runs
iff the force flag is set, or no interval is configured, or no prior
successful run is recorded, or the interval has elapsed. -/
def runsPass (u : OTAUpdater) (now : Int) (force : Bool) : Bool :=
  force ||
    (match u.update_interval_seconds with
     | none => true
     | some ivl =>
         match u.last_update_time with
         | none => true
         | some lt => decide (ivl ≤ now - lt))

/-- A staged reference, when present, points at validated content on disk. -/
def stagedValidated (valid_code : Bytes → Bool) (m : OTAFileMetadata) (fs : FS) : Prop :=
  ∀ lf, m.latest_file = some lf → ∃ c, fs lf = some c ∧ valid_code c = true

/-- The staged reference of a file is either absent or the canonical
`__latest__`-prefixed staging name of that file (every reachable state
satisfies this: `update_latest` only ever stores that name or `None`). -/
def wellFormedStaged (m : OTAFileMetadata) : Bool :=
  match m.latest_file with
  | none => true
  | some lf => lf == LATEST_FILE_PFX ++ m.filename

/-- For a file with a pending update, the staged copy (when referenced)
exists on disk and the recorded remote fingerprint is the canonical hash of
its content. -/
def stagedHashOk (sha1_hex : Bytes → String) (m : OTAFileMetadata) (fs : FS) : Prop :=
  new_version_available m = true → ∀ lf, m.latest_file = some lf →
    ∃ c, fs lf = some c ∧ m.latest = some (sha1_hex (blobPayload c))

/-- The remote collaborator is truthful: a delivered fingerprint is the
canonical content hash of the delivered content (§6 of the spec requires
this of the external interface). -/
def consistentEnv (sha1_hex : Bytes → String) (env : FetchEnv) : Bool :=
  match env.response with
  | .ok sha c => sha == sha1_hex (blobPayload c)
  | _ => true

/-- A fetch environment with adequate memory whose response reports the
fingerprint the file already has (so nothing is to be downloaded). -/
def envSame (m : OTAFileMetadata) (env : FetchEnv) : Bool :=
  decide (OTA_MINIMUM_MEMORY ≤ env.memBefore) &&
  decide (OTA_MINIMUM_MEMORY ≤ env.memAfter) &&
  (match env.response with
   | .ok sha _ => m.current == some sha
   | _ => false)

/-- `envSame` for a whole pass, file by file. -/
def allSame : List OTAFileMetadata → List FetchEnv → Bool
  | [], [] => true
  | m :: ms, e :: es => envSame m e && allSame ms es
  | _, _ => false

/-- A fetch environment that raises nothing: adequate memory both times, no
`MemoryError`, and any delivered content passes the syntax oracle. -/
def goodEnv (valid_code : Bytes → Bool) (env : FetchEnv) : Bool :=
  decide (OTA_MINIMUM_MEMORY ≤ env.memBefore) &&
  decide (OTA_MINIMUM_MEMORY ≤ env.memAfter) &&
  (match env.response with
   | .memoryError => false
   | .ok _ c => valid_code c
   | _ => true)

/-- Pairwise distinctness of a list of strings, as a boolean. -/
def allDistinct : List String → Bool
  | [] => true
  | a :: rest => rest.all (fun b => a != b) && allDistinct rest

/-- Every name a tracked file can occupy on disk: the live name and its
three prefixed staging/quarantine/backup names. -/
def tagsList : List String → List String
  | [] => []
  | a :: rest =>
      a :: (LATEST_FILE_PFX ++ a) :: (ERROR_FILE_PFX ++ a) ::
        (BACKUP_FILE_PFX ++ a) :: tagsList rest

/-- Tracked filenames are admissible: all names a pass can touch (live,
staged, quarantine, backup, for every tracked file) are pairwise distinct.
Any ordinary configuration (distinct plain filenames) satisfies this. -/
def distinctFiles (names : List String) : Bool := allDistinct (tagsList names)

/-! ## Concrete fixtures for witnesses and counterexamples -/

/-- Syntax oracle accepting everything. -/
def vcTrue : Bytes → Bool := fun _ => true

/-- Syntax oracle rejecting everything. -/
def vcFalse : Bytes → Bool := fun _ => false

/-- A concrete stand-in for the hex SHA-1 digest (any function works: the
development is parametric in the hash). -/
def shaLen : Bytes → String := fun bs => "h" ++ toString bs.length

/-- A filesystem holding one live file `a.py`. -/
def fsA : FS := fun k => if k = "a.py" then some [104, 105] else none

/-- A tracked file `a.py` with current fingerprint `h1` and no staged copy. -/
def metaA : OTAFileMetadata := ⟨"a.py", "u", false, false, none, none, some "h1"⟩

/-- A tracked file `b.py` with current fingerprint `h2` and no staged copy. -/
def metaB : OTAFileMetadata := ⟨"b.py", "u", false, false, none, none, some "h2"⟩

/-- A benign response delivering a differing fingerprint `h9`. -/
def envGoodA : FetchEnv := ⟨40000, 40000, .ok "h9" [1, 2, 3]⟩

/-- A fetch observed under the 32000-byte memory floor. -/
def envLowMem : FetchEnv := ⟨100, 40000, .ok "h9" [1, 2, 3]⟩

/-- Orchestrator tracking `a.py` and `b.py`, store initialized for `a.py`. -/
def updTwo : OTAUpdater := ⟨[metaA, metaB], some [("a.py", ⟨some "h1", some "h1"⟩)], none, none⟩

/-- Orchestrator tracking only `a.py`. -/
def updOne : OTAUpdater := ⟨[metaA], some [("a.py", ⟨some "h1", some "h1"⟩)], none, none⟩

/-- `envGoodA` made truthful for `shaLen`: payload `[1,2,3]` has blob
payload length 10, so the fingerprint is `h10`. -/
def envTruthful : FetchEnv := ⟨40000, 40000, .ok "h10" [1, 2, 3]⟩

/-! ## Helper lemmas -/

theorem storeLookup_map_replace (d : Store) (k k2 : String) (v : DBEntry) (h : k2 ≠ k) :
    storeLookup (d.map (fun kv => if kv.1 == k then (kv.1, v) else kv)) k2 =
      storeLookup d k2 := by
  induction d with
  | nil => rfl
  | cons a rest ih =>
      obtain ⟨a1, a2⟩ := a
      simp only [List.map_cons]
      cases hb : (a1 == k) with
      | true =>
          have ha : a1 = k := beq_iff_eq.mp hb
          have hne : ¬ a1 = k2 := fun hh => h (hh.symm.trans ha)
          simp [storeLookup, hne]
          simpa using ih
      | false =>
          by_cases ha2 : a1 = k2
          · simp [storeLookup, ha2]
          · simp [storeLookup, ha2]
            simpa using ih

theorem storeLookup_map_replace_self (d : Store) (k : String) (v : DBEntry) :
    d.any (fun kv => kv.1 == k) = true →
    storeLookup (d.map (fun kv => if kv.1 == k then (kv.1, v) else kv)) k = some v := by
  induction d with
  | nil => intro h; simp at h
  | cons a rest ih =>
      intro h
      obtain ⟨a1, a2⟩ := a
      simp only [List.any_cons, List.map_cons] at h ⊢
      cases hb : (a1 == k) with
      | true =>
          have ha : a1 = k := beq_iff_eq.mp hb
          simp [storeLookup, ha]
      | false =>
          have ha : ¬ a1 = k := beq_eq_false_iff_ne.mp hb
          rw [hb] at h
          simp only [Bool.false_or] at h
          simp [storeLookup, ha]
          simpa using ih h

theorem storeLookup_append_single (d : Store) (k k2 : String) (v : DBEntry) (h : k2 ≠ k) :
    storeLookup (d ++ [(k, v)]) k2 = storeLookup d k2 := by
  induction d with
  | nil => simp [storeLookup, Ne.symm h]
  | cons a rest ih =>
      obtain ⟨a1, a2⟩ := a
      by_cases ha2 : a1 = k2 <;> simp [storeLookup, ha2, ih]

theorem storeLookup_append_single_self (d : Store) (k : String) (v : DBEntry) :
    d.any (fun kv => kv.1 == k) = false → storeLookup (d ++ [(k, v)]) k = some v := by
  induction d with
  | nil => intro _; simp [storeLookup]
  | cons a rest ih =>
      intro h
      obtain ⟨a1, a2⟩ := a
      simp only [List.any_cons, Bool.or_eq_false_iff, beq_eq_false_iff_ne] at h
      simp [storeLookup, h.1, ih h.2]

theorem storeLookup_dict_update_self (d : Store) (k : String) (v : DBEntry) :
    storeLookup (dict_update d k v) k = some v := by
  unfold dict_update
  by_cases hr : d.any (fun kv => kv.1 == k) = true
  · rw [if_pos hr]; exact storeLookup_map_replace_self d k v hr
  · rw [if_neg hr]
    have hr2 : d.any (fun kv => kv.1 == k) = false := by
      cases hx : d.any (fun kv => kv.1 == k)
      · rfl
      · exact absurd hx hr
    exact storeLookup_append_single_self d k v hr2

theorem storeLookup_dict_update_other (d : Store) (k k2 : String) (v : DBEntry)
    (h : k2 ≠ k) :
    storeLookup (dict_update d k v) k2 = storeLookup d k2 := by
  unfold dict_update
  by_cases hr : d.any (fun kv => kv.1 == k) = true
  · rw [if_pos hr]; exact storeLookup_map_replace d k k2 v h
  · rw [if_neg hr]; exact storeLookup_append_single d k k2 v h

/-! ## Claim theorems -/

/-- C8: the local fingerprint function `calculate_github_sha` is
deterministic and content-addressed — for a file with byte content `c` it
hashes exactly the byte string `"blob " ++ decimal(length c) ++ NUL ++ c`,
so identical content yields an identical fingerprint no matter which file
or filesystem state it sits in; and for a filename that does not exist it
returns the empty-string sentinel. -/
theorem github_sha_content_addressed (sha1_hex : Bytes → String) :
    (∀ (fs fs2 : FS) (n n2 : String), fs n = fs2 n2 →
        calculate_github_sha sha1_hex fs n = calculate_github_sha sha1_hex fs2 n2) ∧
    (∀ (fs : FS) (n : String) (c : Bytes), fs n = some c →
        calculate_github_sha sha1_hex fs n =
          sha1_hex ((("blob " ++ toString c.length).data.map Char.toNat) ++ 0 :: c)) ∧
    (∀ (fs : FS) (n : String), fs n = none → calculate_github_sha sha1_hex fs n = "") := by
  refine ⟨?_, ?_, ?_⟩
  · intro fs fs2 n n2 h
    unfold calculate_github_sha
    rw [h]
  · intro fs n c h
    unfold calculate_github_sha
    rw [h]
    rfl
  · intro fs n h
    unfold calculate_github_sha
    rw [h]

/-- Witness for C8 at concrete inputs: the missing file gives the empty
sentinel and a present file gives the hash of its blob payload. -/
theorem github_sha_content_addressed_witness :
    fsA "zzz" = none ∧ fsA "a.py" = some [104, 105] ∧
    calculate_github_sha shaLen fsA "zzz" = "" ∧
    calculate_github_sha shaLen fsA "a.py" =
      shaLen ((("blob " ++ toString (104 :: [105]).length).data.map Char.toNat) ++
        0 :: [104, 105]) :=
  ⟨by decide, by decide,
    (github_sha_content_addressed shaLen).2.2 fsA "zzz" (by decide),
    (github_sha_content_addressed shaLen).2.1 fsA "a.py" [104, 105] (by decide)⟩

/-- C6: with an interval configured, a prior successful run recorded, and
elapsed time strictly under the interval, `updated(force_update=False)`
returns `False` immediately: zero network requests are performed and the
tracked files, the persisted store and the filesystem are all returned
unchanged. -/
theorem interval_gate_no_effect (valid_code : Bytes → Bool) (envs : List FetchEnv)
    (u : OTAUpdater) (fs : FS) (now ivl lt : Int)
    (h1 : u.update_interval_seconds = some ivl)
    (h2 : u.last_update_time = some lt)
    (h3 : now - lt < ivl) :
    updated valid_code envs u fs now false = ⟨u, fs, 0, .returns false⟩ := by
  have h4 : ¬ ivl ≤ now - lt := not_le.mpr h3
  simp [updated, h1, h2, h4]

/-- Witness for C6: a concrete orchestrator with interval 3600 s, last run
at 50, queried at time 100. -/
theorem interval_gate_no_effect_witness :
    (⟨[metaA], some [], some 3600, some 50⟩ : OTAUpdater).update_interval_seconds = some 3600 ∧
    updated vcTrue [envGoodA] ⟨[metaA], some [], some 3600, some 50⟩ fsA 100 false =
      ⟨⟨[metaA], some [], some 3600, some 50⟩, fsA, 0, .returns false⟩ :=
  ⟨by decide,
    interval_gate_no_effect vcTrue [envGoodA] ⟨[metaA], some [], some 3600, some 50⟩
      fsA 100 3600 50 rfl rfl (by decide)⟩

/-- C9: `OTADatabase.update` replaces any existing entry for the filename
(delete-then-insert: the final rewritten container holds exactly the new
pair under that key and every other key unchanged), and when no persisted
container exists it fails with the store-uninitialized error (the
`AttributeError` on `None.update`) without creating the container. -/
theorem db_update_replace_semantics (k : String) (v : DBEntry) :
    (db_update none k v = (none, some .storeUninitialized)) ∧
    (∀ d : Store,
        (db_update (some d) k v).2 = none ∧
        ∃ d2, (db_update (some d) k v).1 = some d2 ∧
          storeLookup d2 k = some v ∧
          ∀ k2, k2 ≠ k → storeLookup d2 k2 = storeLookup d k2) := by
  constructor
  · rfl
  · intro d
    refine ⟨rfl, dict_update d k v, rfl, storeLookup_dict_update_self d k v, ?_⟩
    intro k2 h
    exact storeLookup_dict_update_other d k k2 v h

/-- Witness for C9 at a concrete store: the entry for `a.py` is replaced,
the entry for `b.py` survives, and the uninitialized store errors. -/
theorem db_update_replace_semantics_witness :
    db_update none "a.py" ⟨some "h9", some "h9"⟩ = (none, some .storeUninitialized) ∧
    (db_update (some [("a.py", ⟨some "h1", some "h1"⟩), ("b.py", ⟨none, some "x"⟩)])
        "a.py" ⟨some "h9", some "h9"⟩).2 = none :=
  ⟨(db_update_replace_semantics "a.py" ⟨some "h9", some "h9"⟩).1,
    ((db_update_replace_semantics "a.py" ⟨some "h9", some "h9"⟩).2
      [("a.py", ⟨some "h1", some "h1"⟩), ("b.py", ⟨none, some "x"⟩)]).1⟩

/-- `updated` is exactly a gate around `_check_and_apply_updates`. -/
theorem updated_gate (valid_code : Bytes → Bool) (envs : List FetchEnv)
    (u : OTAUpdater) (fs : FS) (now : Int) (force : Bool) :
    updated valid_code envs u fs now force =
      if runsPass u now force then check_and_apply valid_code envs u fs now
      else ⟨u, fs, 0, .returns false⟩ := by
  cases force with
  | true => simp [updated, runsPass]
  | false =>
      cases h1 : u.update_interval_seconds with
      | none => simp [updated, runsPass, h1]
      | some ivl =>
          cases h2 : u.last_update_time with
          | none => simp [updated, runsPass, h1, h2]
          | some lt =>
              by_cases h3 : ivl ≤ now - lt <;> simp [updated, runsPass, h1, h2, h3]

/-- C1 counterexample: with two tracked files and the first fetch failing
the low-memory check, the pass does NOT continue with the second file (no
request is ever issued, the second file's metadata is untouched) and the
error IS propagated out of the pass to the caller of `updated`. -/
theorem insufficientMemory_aborts_pass_cex :
    (updated vcTrue [envLowMem, envGoodA] updTwo fsA 100 true).out = .raises .noMemory ∧
    (updated vcTrue [envLowMem, envGoodA] updTwo fsA 100 true).net = 0 ∧
    (updated vcTrue [envLowMem, envGoodA] updTwo fsA 100 true).upd.files.get? 1 =
      some metaB := by
  decide

/-- C1 (amended): when the low-memory check fails for one file, the raised
`OTANoMemory` terminates the fetch loop at that file — the remaining files
are returned unfetched — and, since `fetch_updates` catches only the
validation exception, the error propagates out of the pass to the caller
of `updated`. -/
theorem insufficientMemory_propagates (valid_code : Bytes → Bool) :
    (∀ (env : FetchEnv) (m : OTAFileMetadata) (ms : List OTAFileMetadata)
        (envs : List FetchEnv) (fs : FS),
        (update_latest valid_code env m fs).err = some .noMemory →
        fetch_updates valid_code (m :: ms) (env :: envs) fs =
          ⟨(update_latest valid_code env m fs).meta :: ms,
            (update_latest valid_code env m fs).fs,
            (update_latest valid_code env m fs).net, some .noMemory⟩) ∧
    (∀ (envs : List FetchEnv) (u : OTAUpdater) (fs : FS) (now : Int),
        (fetch_updates valid_code u.files envs fs).err = some .noMemory →
        (updated valid_code envs u fs now true).out = .raises .noMemory) := by
  constructor
  · intro env m ms envs fs h
    simp [fetch_updates, fetch_loop, h]
  · intro envs u fs now h
    simp [updated, check_and_apply, check_for_updates, h]

/-- Witness for the amended C1 at a concrete low-memory scenario. -/
theorem insufficientMemory_propagates_witness :
    (fetch_updates vcTrue updTwo.files [envLowMem, envGoodA] fsA).err = some .noMemory ∧
    (updated vcTrue [envLowMem, envGoodA] updTwo fsA 100 true).out = .raises .noMemory :=
  ⟨by decide,
    (insufficientMemory_propagates vcTrue).2 [envLowMem, envGoodA] updTwo fsA 100 (by decide)⟩

/-- C2 counterexample: with two tracked files and the first one failing
validation, exactly one request is issued in the pass — the fetch is NOT
attempted for the second file (its metadata stays untouched), even though
the exception itself is caught at the pass boundary. -/
theorem validation_failure_stops_fetch_cex :
    (fetch_updates vcFalse [metaA, metaB] [envGoodA, envGoodA] fsA).net = 1 ∧
    (fetch_updates vcFalse [metaA, metaB] [envGoodA, envGoodA] fsA).files.get? 1 =
      some metaB ∧
    (fetch_updates vcFalse [metaA, metaB] [envGoodA, envGoodA] fsA).err = none := by
  decide

/-- C2 (amended): an `OTANewFileWillNotValidate` raised while fetching one
file is caught (and only reported) at `fetch_updates`' pass-level boundary,
so it does not propagate out of the fetch phase as an exception — but the
`try` block wraps the whole loop, so the loop terminates at the failing
file and no fetch is attempted for the remaining files in that pass. -/
theorem validation_failure_caught_stops_loop (valid_code : Bytes → Bool) :
    (∀ (env : FetchEnv) (m : OTAFileMetadata) (ms : List OTAFileMetadata)
        (envs : List FetchEnv) (fs : FS),
        (update_latest valid_code env m fs).err = some .willNotValidate →
        fetch_updates valid_code (m :: ms) (env :: envs) fs =
          ⟨(update_latest valid_code env m fs).meta :: ms,
            (update_latest valid_code env m fs).fs,
            (update_latest valid_code env m fs).net, none⟩) ∧
    (∀ (files : List OTAFileMetadata) (envs : List FetchEnv) (fs : FS),
        (fetch_loop valid_code files envs fs).err = some .willNotValidate →
        fetch_updates valid_code files envs fs =
          ⟨(fetch_loop valid_code files envs fs).files,
            (fetch_loop valid_code files envs fs).fs,
            (fetch_loop valid_code files envs fs).net, none⟩) := by
  constructor
  · intro env m ms envs fs h
    simp [fetch_updates, fetch_loop, h]
  · intro files envs fs h
    simp [fetch_updates, h]

/-- Witness for the amended C2 at a concrete failing-validation scenario. -/
theorem validation_failure_caught_stops_loop_witness :
    (update_latest vcFalse envGoodA metaA fsA).err = some .willNotValidate ∧
    fetch_updates vcFalse [metaA, metaB] [envGoodA] fsA =
      ⟨(update_latest vcFalse envGoodA metaA fsA).meta :: [metaB],
        (update_latest vcFalse envGoodA metaA fsA).fs,
        (update_latest vcFalse envGoodA metaA fsA).net, none⟩ :=
  ⟨by decide,
    (validation_failure_caught_stops_loop vcFalse).1 envGoodA metaA [metaB] [] fsA (by decide)⟩

/-- C3 counterexample: a pass in which `a.py` IS promoted (its current
fingerprint becomes the new `h9` and the store is updated) yet the entry
point does not return `True` — it resets the device instead. -/
theorem updated_never_returns_true_cex :
    ((updated vcTrue [envGoodA] updOne fsA 100 true).upd.files.map
        (fun m => m.current)) = [some "h9"] ∧
    (updated vcTrue [envGoodA] updOne fsA 100 true).upd.store =
      some [("a.py", ⟨some "h9", some "h9"⟩)] ∧
    (updated vcTrue [envGoodA] updOne fsA 100 true).out = .resets 1 ∧
    (updated vcTrue [envGoodA] updOne fsA 100 true).out ≠ .returns true := by
  decide

/-- C3 (amended): `updated(force)` never returns `True`. When the pass
applies at least one update (and raises nothing), it records
`last_update_time := now` and triggers the device reset after the fixed
1-second delay — never returning to the caller; when no updates are
applied it returns `False` and leaves `last_update_time` unchanged. -/
theorem updated_outcome_spec (valid_code : Bytes → Bool) (envs : List FetchEnv)
    (u : OTAUpdater) (fs : FS) (now : Int) (force : Bool) :
    ((updated valid_code envs u fs now force).out ≠ .returns true) ∧
    (runsPass u now force = true →
      (check_for_updates valid_code u.files envs fs u.store).err = none →
      (check_for_updates valid_code u.files envs fs u.store).changed = true →
      (updated valid_code envs u fs now force).out = .resets 1 ∧
      (updated valid_code envs u fs now force).upd.last_update_time = some now) ∧
    (runsPass u now force = true →
      (check_for_updates valid_code u.files envs fs u.store).err = none →
      (check_for_updates valid_code u.files envs fs u.store).changed = false →
      (updated valid_code envs u fs now force).out = .returns false ∧
      (updated valid_code envs u fs now force).upd.last_update_time =
        u.last_update_time) := by
  rw [updated_gate valid_code envs u fs now force]
  by_cases hr : runsPass u now force = true
  · rw [if_pos hr]
    cases herr : (check_for_updates valid_code u.files envs fs u.store).err with
    | some e =>
        refine ⟨?_, ?_, ?_⟩
        · simp [check_and_apply, herr]
        · intro _ h2; exact absurd h2 (by simp)
        · intro _ h2; exact absurd h2 (by simp)
    | none =>
        cases hch : (check_for_updates valid_code u.files envs fs u.store).changed with
        | true =>
            refine ⟨?_, ?_, ?_⟩
            · simp [check_and_apply, herr, hch]
            · intro _ _ _; constructor <;> simp [check_and_apply, herr, hch]
            · intro _ _ h3; exact absurd h3 (by simp)
        | false =>
            refine ⟨?_, ?_, ?_⟩
            · simp [check_and_apply, herr, hch]
            · intro _ _ h3; exact absurd h3 (by simp)
            · intro _ _ _; constructor <;> simp [check_and_apply, herr, hch]
  · rw [if_neg hr]
    refine ⟨by simp, ?_, ?_⟩
    · intro h; exact absurd h hr
    · intro h; exact absurd h hr

/-- Witness for the amended C3 at the concrete promoted scenario. -/
theorem updated_outcome_spec_witness :
    runsPass updOne 100 true = true ∧
    (updated vcTrue [envGoodA] updOne fsA 100 true).out = .resets 1 ∧
    (updated vcTrue [envGoodA] updOne fsA 100 true).upd.last_update_time = some 100 :=
  ⟨by decide,
    ((updated_outcome_spec vcTrue [envGoodA] updOne fsA 100 true).2.1
      (by decide) (by decide) (by decide)).1,
    ((updated_outcome_spec vcTrue [envGoodA] updOne fsA 100 true).2.1
      (by decide) (by decide) (by decide)).2⟩

/-! ## Shape lemmas for the per-file operations -/

theorem update_latest_memBefore (valid_code : Bytes → Bool) (env : FetchEnv)
    (m : OTAFileMetadata) (fs : FS) (h : env.memBefore < OTA_MINIMUM_MEMORY) :
    update_latest valid_code env m fs = ⟨m, fs, 0, some .noMemory⟩ := by
  simp [update_latest, h]

theorem update_latest_jsonError (valid_code : Bytes → Bool) (env : FetchEnv)
    (m : OTAFileMetadata) (fs : FS) (h1 : ¬ env.memBefore < OTA_MINIMUM_MEMORY)
    (h : env.response = .jsonError) :
    update_latest valid_code env m fs = ⟨m, fs, 1, none⟩ := by
  simp [update_latest, h1, h]

theorem update_latest_memoryError (valid_code : Bytes → Bool) (env : FetchEnv)
    (m : OTAFileMetadata) (fs : FS) (h1 : ¬ env.memBefore < OTA_MINIMUM_MEMORY)
    (h : env.response = .memoryError) :
    update_latest valid_code env m fs = ⟨m, fs, 1, some .noMemory⟩ := by
  simp [update_latest, h1, h]

theorem update_latest_noSha (valid_code : Bytes → Bool) (env : FetchEnv)
    (m : OTAFileMetadata) (fs : FS) (h1 : ¬ env.memBefore < OTA_MINIMUM_MEMORY)
    (h2 : ¬ env.memAfter < OTA_MINIMUM_MEMORY) (h : env.response = .noSha) :
    update_latest valid_code env m fs = ⟨m, fs, 1, none⟩ := by
  simp [update_latest, h1, h2, h]

theorem update_latest_ok_memAfter (valid_code : Bytes → Bool) (env : FetchEnv)
    (m : OTAFileMetadata) (fs : FS) (sha : String) (content : Bytes)
    (h1 : ¬ env.memBefore < OTA_MINIMUM_MEMORY)
    (h2 : env.memAfter < OTA_MINIMUM_MEMORY) (h : env.response = .ok sha content) :
    update_latest valid_code env m fs = ⟨m, fs, 1, some .noMemory⟩ := by
  simp [update_latest, h1, h2, h]

theorem update_latest_ok_same (valid_code : Bytes → Bool) (env : FetchEnv)
    (m : OTAFileMetadata) (fs : FS) (sha : String) (content : Bytes)
    (h1 : ¬ env.memBefore < OTA_MINIMUM_MEMORY)
    (h2 : ¬ env.memAfter < OTA_MINIMUM_MEMORY) (h : env.response = .ok sha content)
    (hsame : m.current = some sha) :
    update_latest valid_code env m fs = ⟨{ m with latest := some sha }, fs, 1, none⟩ := by
  have hnv : new_version_available { m with latest := some sha } = false := by
    simp [new_version_available, hsame]
  simp [update_latest, h1, h2, h, hnv]

theorem update_latest_ok_new_valid (valid_code : Bytes → Bool) (env : FetchEnv)
    (m : OTAFileMetadata) (fs : FS) (sha : String) (content : Bytes)
    (h1 : ¬ env.memBefore < OTA_MINIMUM_MEMORY)
    (h2 : ¬ env.memAfter < OTA_MINIMUM_MEMORY) (h : env.response = .ok sha content)
    (hdiff : m.current ≠ some sha) (hv : valid_code content = true) :
    update_latest valid_code env m fs =
      ⟨{ m with latest := some sha, latest_file := some (LATEST_FILE_PFX ++ m.filename) },
        FS.write fs (LATEST_FILE_PFX ++ m.filename) content, 1, none⟩ := by
  have hnv : new_version_available { m with latest := some sha } = true := by
    simp [new_version_available, hdiff]
  simp [update_latest, h1, h2, h, hnv, hv]

theorem update_latest_ok_new_invalid (valid_code : Bytes → Bool) (env : FetchEnv)
    (m : OTAFileMetadata) (fs : FS) (sha : String) (content : Bytes)
    (h1 : ¬ env.memBefore < OTA_MINIMUM_MEMORY)
    (h2 : ¬ env.memAfter < OTA_MINIMUM_MEMORY) (h : env.response = .ok sha content)
    (hdiff : m.current ≠ some sha) (hv : valid_code content = false) :
    update_latest valid_code env m fs =
      ⟨{ m with latest := some sha, latest_file := none },
        FS.renameF (FS.write fs (LATEST_FILE_PFX ++ m.filename) content)
          (LATEST_FILE_PFX ++ m.filename) (ERROR_FILE_PFX ++ m.filename), 1,
        some .willNotValidate⟩ := by
  have hnv : new_version_available { m with latest := some sha } = true := by
    simp [new_version_available, hdiff]
  simp [update_latest, h1, h2, h, hnv, hv]

theorem update_latest_filename (valid_code : Bytes → Bool) (env : FetchEnv)
    (m : OTAFileMetadata) (fs : FS) :
    (update_latest valid_code env m fs).meta.filename = m.filename := by
  by_cases h1 : env.memBefore < OTA_MINIMUM_MEMORY
  · rw [update_latest_memBefore _ _ _ _ h1]
  · cases hresp : env.response with
    | jsonError => rw [update_latest_jsonError _ _ _ _ h1 hresp]
    | memoryError => rw [update_latest_memoryError _ _ _ _ h1 hresp]
    | noSha =>
        by_cases h2 : env.memAfter < OTA_MINIMUM_MEMORY
        · simp [update_latest, h1, h2, hresp]
        · rw [update_latest_noSha _ _ _ _ h1 h2 hresp]
    | ok sha content =>
        by_cases h2 : env.memAfter < OTA_MINIMUM_MEMORY
        · rw [update_latest_ok_memAfter _ _ _ _ sha content h1 h2 hresp]
        · by_cases hdiff : m.current = some sha
          · rw [update_latest_ok_same _ _ _ _ sha content h1 h2 hresp hdiff]
          · cases hv : valid_code content with
            | false => rw [update_latest_ok_new_invalid _ _ _ _ sha content h1 h2 hresp hdiff hv]
            | true => rw [update_latest_ok_new_valid _ _ _ _ sha content h1 h2 hresp hdiff hv]

theorem set_current_none (m : OTAFileMetadata) (fs : FS) (h : m.latest_file = none) :
    set_current_to_latest m fs = ⟨m, backupFs m fs, some .typeError⟩ := by
  simp [set_current_to_latest, h]

theorem set_current_missing (m : OTAFileMetadata) (fs : FS) (lf : String)
    (h : m.latest_file = some lf) (h2 : backupFs m fs lf = none) :
    set_current_to_latest m fs = ⟨m, backupFs m fs, some .osError⟩ := by
  simp [set_current_to_latest, h, h2]

theorem set_current_ok (m : OTAFileMetadata) (fs : FS) (lf : String) (c : Bytes)
    (h : m.latest_file = some lf) (h2 : backupFs m fs lf = some c) :
    set_current_to_latest m fs =
      ⟨{ m with current := m.latest }, FS.renameF (backupFs m fs) lf m.filename, none⟩ := by
  simp [set_current_to_latest, h, h2]

/-- C4: promotion requires a validated staged copy. (1) With no staged
reference, `set_current_to_latest` fails with the `TypeError` from
`os.rename(None, ...)` — never a silent no-op. (2) Whenever promotion
succeeds, a staged reference was present and the fingerprint was advanced
(`current := latest`). (3) The fetch step only ever leaves staged
references to content that passed the validation oracle (so a present
staged copy is a validated one). (4) In the orchestrator's promote loop, a
file with a pending update but no staged reference makes the loop raise
the error, promoting nothing. -/
theorem promotion_requires_staged (valid_code : Bytes → Bool) :
    (∀ (m : OTAFileMetadata) (fs : FS), m.latest_file = none →
        (set_current_to_latest m fs).err = some .typeError) ∧
    (∀ (m : OTAFileMetadata) (fs : FS), (set_current_to_latest m fs).err = none →
        ∃ lf, m.latest_file = some lf ∧
          (set_current_to_latest m fs).meta.current = m.latest) ∧
    (∀ (env : FetchEnv) (m : OTAFileMetadata) (fs : FS),
        stagedValidated valid_code m fs →
        stagedValidated valid_code (update_latest valid_code env m fs).meta
          (update_latest valid_code env m fs).fs) ∧
    (∀ (m : OTAFileMetadata) (ms : List OTAFileMetadata) (fs : FS) (p : Option Store),
        m.latest_file = none → new_version_available m = true →
        (promote_loop (m :: ms) fs p).err = some .typeError ∧
        (promote_loop (m :: ms) fs p).changed = false) := by
  refine ⟨?_, ?_, ?_, ?_⟩
  · intro m fs h
    rw [set_current_none m fs h]
  · intro m fs h
    cases hlf : m.latest_file with
    | none => rw [set_current_none m fs hlf] at h; exact absurd h (by simp)
    | some lf =>
        cases h2 : backupFs m fs lf with
        | none => rw [set_current_missing m fs lf hlf h2] at h; exact absurd h (by simp)
        | some c =>
            refine ⟨lf, rfl, ?_⟩
            rw [set_current_ok m fs lf c hlf h2]
  · intro env m fs hsv
    by_cases h1 : env.memBefore < OTA_MINIMUM_MEMORY
    · rw [update_latest_memBefore _ _ _ _ h1]; exact hsv
    · cases hresp : env.response with
      | jsonError => rw [update_latest_jsonError _ _ _ _ h1 hresp]; exact hsv
      | memoryError => rw [update_latest_memoryError _ _ _ _ h1 hresp]; exact hsv
      | noSha =>
          by_cases h2 : env.memAfter < OTA_MINIMUM_MEMORY
          · simp only [update_latest, h1, hresp, h2]
            simpa using hsv
          · rw [update_latest_noSha _ _ _ _ h1 h2 hresp]; exact hsv
      | ok sha content =>
          by_cases h2 : env.memAfter < OTA_MINIMUM_MEMORY
          · rw [update_latest_ok_memAfter _ _ _ _ sha content h1 h2 hresp]; exact hsv
          · by_cases hdiff : m.current = some sha
            · rw [update_latest_ok_same _ _ _ _ sha content h1 h2 hresp hdiff]
              intro lf hlf
              exact hsv lf hlf
            · cases hv : valid_code content with
              | false =>
                  rw [update_latest_ok_new_invalid _ _ _ _ sha content h1 h2 hresp hdiff hv]
                  intro lf hlf
                  exact absurd hlf (by simp)
              | true =>
                  rw [update_latest_ok_new_valid _ _ _ _ sha content h1 h2 hresp hdiff hv]
                  intro lf hlf
                  have hlf2 : LATEST_FILE_PFX ++ m.filename = lf := by
                    simpa using hlf
                  subst hlf2
                  exact ⟨content, by simp [FS.write], hv⟩
  · intro m ms fs p h hnv
    have hs := set_current_none m fs h
    simp [promote_loop, hnv, hs]

/-- Witness for C4: a file with a pending update and no staged copy makes
both direct promotion and the orchestrator's loop raise the `TypeError`. -/
theorem promotion_requires_staged_witness :
    (⟨"a.py", "u", false, false, some "h9", none, some "h1"⟩ : OTAFileMetadata).latest_file
        = none ∧
    (set_current_to_latest ⟨"a.py", "u", false, false, some "h9", none, some "h1"⟩ fsA).err
        = some .typeError ∧
    (promote_loop [⟨"a.py", "u", false, false, some "h9", none, some "h1"⟩] fsA
        (some [])).err = some .typeError :=
  ⟨rfl,
    (promotion_requires_staged vcTrue).1
      ⟨"a.py", "u", false, false, some "h9", none, some "h1"⟩ fsA rfl,
    ((promotion_requires_staged vcTrue).2.2.2
      ⟨"a.py", "u", false, false, some "h9", none, some "h1"⟩ [] fsA (some [])
      rfl (by decide)).1⟩

theorem fetch_updates_of_err_none (valid_code : Bytes → Bool)
    (files : List OTAFileMetadata) (envs : List FetchEnv) (fs : FS)
    (h : (fetch_loop valid_code files envs fs).err = none) :
    fetch_updates valid_code files envs fs = fetch_loop valid_code files envs fs := by
  simp [fetch_updates, h]

theorem promote_loop_noNew :
    ∀ (ms : List OTAFileMetadata) (fs : FS) (p : Option Store),
      (∀ m ∈ ms, new_version_available m = false) →
      promote_loop ms fs p = ⟨ms, fs, p, false, none⟩ := by
  intro ms
  induction ms with
  | nil => intro fs p _; rfl
  | cons m rest ih =>
      intro fs p h
      have hm : new_version_available m = false := h m (List.mem_cons_self m rest)
      have hrest := ih fs p (fun m2 hm2 => h m2 (List.mem_cons_of_mem m hm2))
      simp [promote_loop, hm, hrest]

theorem fetch_loop_allSame (valid_code : Bytes → Bool) :
    ∀ (files : List OTAFileMetadata) (envs : List FetchEnv) (fs : FS),
      allSame files envs = true →
      (fetch_loop valid_code files envs fs).fs = fs ∧
      (fetch_loop valid_code files envs fs).err = none ∧
      ∀ m2 ∈ (fetch_loop valid_code files envs fs).files,
        new_version_available m2 = false := by
  intro files
  induction files with
  | nil =>
      intro envs fs h
      cases envs with
      | nil => exact ⟨rfl, rfl, by intro m2 hm2; exact absurd hm2 (List.not_mem_nil m2)⟩
      | cons e es => exact absurd h (by simp [allSame])
  | cons m rest ih =>
      intro envs fs h
      cases envs with
      | nil => exact absurd h (by simp [allSame])
      | cons e es =>
          simp only [allSame, Bool.and_eq_true] at h
          obtain ⟨hm, hrest⟩ := h
          simp only [envSame, Bool.and_eq_true, decide_eq_true_eq] at hm
          obtain ⟨⟨hb, ha⟩, hresp0⟩ := hm
          cases hresp : e.response with
          | jsonError => rw [hresp] at hresp0; exact absurd hresp0 (by simp)
          | memoryError => rw [hresp] at hresp0; exact absurd hresp0 (by simp)
          | noSha => rw [hresp] at hresp0; exact absurd hresp0 (by simp)
          | ok sha content =>
              rw [hresp] at hresp0
              have hcur : m.current = some sha := by simpa using hresp0
              have hstep := update_latest_ok_same valid_code e m fs sha content
                (not_lt.mpr hb) (not_lt.mpr ha) hresp hcur
              have hihr := ih es fs hrest
              simp only [fetch_loop, hstep]
              refine ⟨hihr.1, hihr.2.1, ?_⟩
              intro m2 hm2
              simp only [List.mem_cons] at hm2
              rcases hm2 with hm2 | hm2
              · subst hm2
                simp [new_version_available, hcur]
              · exact hihr.2.2 m2 hm2

/-- C7: when the remote fingerprint equals the current one, `update_latest`
writes nothing to disk (no content is downloaded) and only records the
fingerprint; a pass in which every remote fingerprint matches the current
one changes no file, leaves the store untouched, promotes nothing, and the
entry point returns `False`. -/
theorem unchanged_remote_no_download (valid_code : Bytes → Bool) :
    (∀ (env : FetchEnv) (m : OTAFileMetadata) (fs : FS) (sha : String) (content : Bytes),
        env.response = .ok sha content →
        OTA_MINIMUM_MEMORY ≤ env.memBefore → OTA_MINIMUM_MEMORY ≤ env.memAfter →
        m.current = some sha →
        update_latest valid_code env m fs = ⟨{ m with latest := some sha }, fs, 1, none⟩) ∧
    (∀ (files : List OTAFileMetadata) (envs : List FetchEnv) (fs : FS) (store : Option Store),
        allSame files envs = true →
        (check_for_updates valid_code files envs fs store).changed = false ∧
        (check_for_updates valid_code files envs fs store).fs = fs ∧
        (check_for_updates valid_code files envs fs store).store = store ∧
        (check_for_updates valid_code files envs fs store).err = none) ∧
    (∀ (envs : List FetchEnv) (u : OTAUpdater) (fs : FS) (now : Int) (force : Bool),
        allSame u.files envs = true →
        (updated valid_code envs u fs now force).out = .returns false ∧
        (updated valid_code envs u fs now force).fs = fs) := by
  have key : ∀ (files : List OTAFileMetadata) (envs : List FetchEnv) (fs : FS)
      (store : Option Store), allSame files envs = true →
      (check_for_updates valid_code files envs fs store).changed = false ∧
      (check_for_updates valid_code files envs fs store).fs = fs ∧
      (check_for_updates valid_code files envs fs store).store = store ∧
      (check_for_updates valid_code files envs fs store).err = none := by
    intro files envs fs store h
    obtain ⟨hfs, herr, hnew⟩ := fetch_loop_allSame valid_code files envs fs h
    have hfu := fetch_updates_of_err_none valid_code files envs fs herr
    have hpl := promote_loop_noNew (fetch_loop valid_code files envs fs).files
      (fetch_loop valid_code files envs fs).fs store hnew
    rw [hfs] at hpl
    simp [check_for_updates, hfu, herr, hpl, hfs]
  refine ⟨?_, key, ?_⟩
  · intro env m fs sha content hresp hb ha hcur
    exact update_latest_ok_same valid_code env m fs sha content
      (not_lt.mpr hb) (not_lt.mpr ha) hresp hcur
  · intro envs u fs now force h
    obtain ⟨hch, hfs, hst, herr⟩ := key u.files envs fs u.store h
    rw [updated_gate valid_code envs u fs now force]
    by_cases hr : runsPass u now force = true
    · rw [if_pos hr]
      constructor <;> simp [check_and_apply, herr, hch, hfs]
    · rw [if_neg hr]
      exact ⟨rfl, rfl⟩

/-- Witness for C7: a file whose remote fingerprint matches (`h1`) leads to
a `False` return with the filesystem unchanged. -/
theorem unchanged_remote_no_download_witness :
    allSame updOne.files [⟨40000, 40000, .ok "h1" [9]⟩] = true ∧
    (updated vcTrue [⟨40000, 40000, .ok "h1" [9]⟩] updOne fsA 100 true).out =
      .returns false ∧
    (updated vcTrue [⟨40000, 40000, .ok "h1" [9]⟩] updOne fsA 100 true).fs = fsA :=
  ⟨by decide,
    ((unchanged_remote_no_download vcTrue).2.2 [⟨40000, 40000, .ok "h1" [9]⟩]
      updOne fsA 100 true (by decide)).1,
    ((unchanged_remote_no_download vcTrue).2.2 [⟨40000, 40000, .ok "h1" [9]⟩]
      updOne fsA 100 true (by decide)).2⟩

theorem update_latest_goodEnv (valid_code : Bytes → Bool) (env : FetchEnv)
    (m : OTAFileMetadata) (fs : FS) (h : goodEnv valid_code env = true) :
    (update_latest valid_code env m fs).err = none ∧
    (update_latest valid_code env m fs).net = 1 := by
  simp only [goodEnv, Bool.and_eq_true, decide_eq_true_eq] at h
  obtain ⟨⟨hb, ha⟩, hresp0⟩ := h
  cases hresp : env.response with
  | jsonError =>
      rw [update_latest_jsonError _ _ _ _ (not_lt.mpr hb) hresp]; exact ⟨rfl, rfl⟩
  | memoryError => rw [hresp] at hresp0; exact absurd hresp0 (by simp)
  | noSha =>
      rw [update_latest_noSha _ _ _ _ (not_lt.mpr hb) (not_lt.mpr ha) hresp]
      exact ⟨rfl, rfl⟩
  | ok sha content =>
      rw [hresp] at hresp0
      by_cases hdiff : m.current = some sha
      · rw [update_latest_ok_same _ _ _ _ sha content (not_lt.mpr hb) (not_lt.mpr ha)
          hresp hdiff]
        exact ⟨rfl, rfl⟩
      · rw [update_latest_ok_new_valid _ _ _ _ sha content (not_lt.mpr hb)
          (not_lt.mpr ha) hresp hdiff hresp0]
        exact ⟨rfl, rfl⟩

theorem fileMetadata_init_good (sha1_hex : Bytes → String) (valid_code : Bytes → Bool)
    (env : FetchEnv) (repo name : String) (debug sb : Bool) (fs : FS)
    (h : goodEnv valid_code env = true) :
    (OTAFileMetadata.init sha1_hex valid_code env repo name debug sb fs).err = none ∧
    (OTAFileMetadata.init sha1_hex valid_code env repo name debug sb fs).net = 1 ∧
    (OTAFileMetadata.init sha1_hex valid_code env repo name debug sb fs).meta.filename
      = name := by
  refine ⟨(update_latest_goodEnv valid_code env _ fs h).1,
    (update_latest_goodEnv valid_code env _ fs h).2, ?_⟩
  show (update_latest valid_code env _ fs).meta.filename = name
  rw [update_latest_filename]

theorem any_map_replace (d : Store) (k k2 : String) (v : DBEntry) :
    ((d.map (fun kv => if kv.1 == k then (kv.1, v) else kv)).any
        fun kv => kv.1 == k2) = d.any (fun kv => kv.1 == k2) := by
  induction d with
  | nil => rfl
  | cons a rest ih =>
      obtain ⟨a1, a2⟩ := a
      simp only [List.map_cons, List.any_cons]
      cases hk : (a1 == k) with
      | true => rw [if_pos rfl, ih]
      | false => rw [if_neg (by simp), ih]

theorem any_key_dict_update_ne (d : Store) (k k2 : String) (v : DBEntry) (h : k2 ≠ k) :
    (dict_update d k v).any (fun kv => kv.1 == k2) = d.any (fun kv => kv.1 == k2) := by
  unfold dict_update
  by_cases hr : d.any (fun kv => kv.1 == k) = true
  · rw [if_pos hr]
    exact any_map_replace d k k2 v
  · rw [if_neg hr]
    simp [List.any_append, beq_eq_false_iff_ne.mpr (Ne.symm h)]

theorem db_init_loop_true :
    ∀ (files : List OTAFileMetadata) (p : Option Store), p.isSome = true →
      (db_init_loop true files p).2 = none := by
  intro files
  induction files with
  | nil => intro p _; rfl
  | cons m ms ih =>
      intro p hp
      obtain ⟨d, rfl⟩ := Option.isSome_iff_exists.mp hp
      by_cases he : entryExists (some d) m.filename = true
      · simp [db_init_loop, he, ih (some d) rfl]
      · have he2 : entryExists (some d) m.filename = false := by
          cases hx : entryExists (some d) m.filename
          · rfl
          · exact absurd hx he
        simp [db_init_loop, he2, db_create,
          ih (some (dict_update d m.filename ⟨m.latest, m.current⟩)) rfl]

theorem db_init_loop_false :
    ∀ (files : List OTAFileMetadata) (p : Option Store),
      (∀ m ∈ files, entryExists p m.filename = false) →
      allDistinct (files.map (fun m => m.filename)) = true →
      (db_init_loop false files p).2 = none := by
  intro files
  induction files with
  | nil => intro p _ _; rfl
  | cons m ms ih =>
      intro p hE hdist
      have hEm : entryExists p m.filename = false := hE m (List.mem_cons_self m ms)
      simp only [List.map_cons, allDistinct, Bool.and_eq_true, List.all_eq_true,
        bne_iff_ne] at hdist
      obtain ⟨hd1, hd2⟩ := hdist
      have hne : ∀ m2 ∈ ms, m2.filename ≠ m.filename := fun m2 hm2 =>
        Ne.symm (hd1 m2.filename (List.mem_map_of_mem _ hm2))
      cases p with
      | none =>
          have hstep : ∀ m2 ∈ ms,
              entryExists (some (dict_update [] m.filename ⟨m.latest, m.current⟩))
                m2.filename = false := by
            intro m2 hm2
            show (dict_update [] m.filename _).any (fun kv => kv.1 == m2.filename)
              = false
            rw [any_key_dict_update_ne _ _ _ _ (hne m2 hm2)]
            rfl
          simp [db_init_loop, hEm, db_create, ih _ hstep hd2]
      | some d =>
          have hstep : ∀ m2 ∈ ms,
              entryExists (some (dict_update d m.filename ⟨m.latest, m.current⟩))
                m2.filename = false := by
            intro m2 hm2
            show (dict_update d m.filename _).any (fun kv => kv.1 == m2.filename)
              = false
            rw [any_key_dict_update_ne _ _ _ _ (hne m2 hm2)]
            exact hE m2 (List.mem_cons_of_mem m hm2)
          simp [db_init_loop, hEm, db_create, ih _ hstep hd2]

theorem db_init_ok (files : List OTAFileMetadata) (p : Option Store)
    (h : p.isSome = true ∨ allDistinct (files.map (fun m => m.filename)) = true) :
    (db_init files p).2 = none := by
  unfold db_init
  cases hp : p with
  | some d =>
      simp only [Option.isSome_some]
      exact db_init_loop_true files (some d) rfl
  | none =>
      rcases h with h | h
      · rw [hp] at h; exact absurd h (by simp)
      · simp only [Option.isSome_none]
        exact db_init_loop_false files none (fun m _ => rfl) h

theorem init_files_loop_good (sha1_hex : Bytes → String) (valid_code : Bytes → Bool) :
    ∀ (rfs : List (String × String)) (envs : List FetchEnv) (debug sb : Bool) (fs : FS),
      envs.length = rfs.length →
      envs.all (goodEnv valid_code) = true →
      (init_files_loop sha1_hex valid_code rfs envs debug sb fs).err = none ∧
      (init_files_loop sha1_hex valid_code rfs envs debug sb fs).net = rfs.length ∧
      (init_files_loop sha1_hex valid_code rfs envs debug sb fs).files.map
        (fun m => m.filename) = rfs.map (fun rf => rf.2) := by
  intro rfs
  induction rfs with
  | nil =>
      intro envs debug sb fs hlen hgood
      cases envs with
      | nil => exact ⟨rfl, rfl, rfl⟩
      | cons e es => simp at hlen
  | cons rf rest ih =>
      intro envs debug sb fs hlen hgood
      cases envs with
      | nil => simp at hlen
      | cons e es =>
          obtain ⟨repo, name⟩ := rf
          simp only [List.all_cons, Bool.and_eq_true] at hgood
          obtain ⟨hge, hges⟩ := hgood
          obtain ⟨h1, h2, h3⟩ :=
            fileMetadata_init_good sha1_hex valid_code e repo name debug sb fs hge
          have hlen2 : es.length = rest.length := by simpa using hlen
          obtain ⟨ihe, ihn, ihm⟩ := ih es debug sb
            (OTAFileMetadata.init sha1_hex valid_code e repo name debug sb fs).fs
            hlen2 hges
          simp only [init_files_loop, h1]
          refine ⟨ihe, ?_, ?_⟩
          · simp only [h2, ihn, List.length_cons]
            omega
          · simp [h3, ihm]

/-- C10: constructing the orchestrator performs a remote fetch immediately:
with benign environments, construction completes with exactly one request
per tracked file even when `update_on_initialization` is `False` and an
update interval is configured (and `last_update_time` starts unset); and
whenever a fetched fingerprint differs from the file's current one, the
fetch (also the one inside the constructor) downloads the content, stages
it under the `__latest__` name and records the validated staged copy. -/
theorem constructor_fetches_every_file (sha1_hex : Bytes → String)
    (valid_code : Bytes → Bool) (repo_files : List (String × String))
    (envs envs2 : List FetchEnv) (mins : Int) (debug sb : Bool) (fs : FS)
    (store : Option Store) (now : Int)
    (hlen : envs.length = repo_files.length)
    (hgood : envs.all (goodEnv valid_code) = true)
    (hdb : store.isSome = true ∨ allDistinct (repo_files.map (fun rf => rf.2)) = true) :
    ((OTAUpdater.init sha1_hex valid_code repo_files envs envs2 (some mins)
        false debug sb fs store now).out = .constructed ∧
     (OTAUpdater.init sha1_hex valid_code repo_files envs envs2 (some mins)
        false debug sb fs store now).net = repo_files.length ∧
     (OTAUpdater.init sha1_hex valid_code repo_files envs envs2 (some mins)
        false debug sb fs store now).upd.update_interval_seconds = some (mins * 60) ∧
     (OTAUpdater.init sha1_hex valid_code repo_files envs envs2 (some mins)
        false debug sb fs store now).upd.last_update_time = none) ∧
    (∀ (env : FetchEnv) (m : OTAFileMetadata) (fs2 : FS) (sha : String) (content : Bytes),
        goodEnv valid_code env = true → env.response = .ok sha content →
        m.current ≠ some sha →
        update_latest valid_code env m fs2 =
          ⟨{ m with latest := some sha, latest_file := some (LATEST_FILE_PFX ++ m.filename) },
            FS.write fs2 (LATEST_FILE_PFX ++ m.filename) content, 1, none⟩) := by
  constructor
  · obtain ⟨he, hn, hm⟩ :=
      init_files_loop_good sha1_hex valid_code repo_files envs debug sb fs hlen hgood
    have hdb2 : (db_init
        (init_files_loop sha1_hex valid_code repo_files envs debug sb fs).files
        store).2 = none := by
      apply db_init_ok
      rcases hdb with h | h
      · exact Or.inl h
      · right; rw [hm]; exact h
    simp only [OTAUpdater.init, he, hdb2, Bool.false_eq_true, if_false]
    exact ⟨by trivial, hn, by simp, by trivial⟩
  · intro env m fs2 sha content hge hresp hdiff
    simp only [goodEnv, Bool.and_eq_true, decide_eq_true_eq] at hge
    obtain ⟨⟨hb, ha⟩, hr0⟩ := hge
    rw [hresp] at hr0
    exact update_latest_ok_new_valid valid_code env m fs2 sha content
      (not_lt.mpr hb) (not_lt.mpr ha) hresp hdiff hr0

/-- Witness for C10: constructing over two tracked files with benign
environments issues exactly two requests even though no update at
initialization was requested and a 60-minute interval is configured. -/
theorem constructor_fetches_every_file_witness :
    ([envGoodA, ⟨40000, 40000, .ok "h8" [7]⟩] : List FetchEnv).all (goodEnv vcTrue)
        = true ∧
    (OTAUpdater.init shaLen vcTrue [("r", "a.py"), ("r", "b.py")]
        [envGoodA, ⟨40000, 40000, .ok "h8" [7]⟩] [] (some 60) false false false
        fsA (some []) 0).out = .constructed ∧
    (OTAUpdater.init shaLen vcTrue [("r", "a.py"), ("r", "b.py")]
        [envGoodA, ⟨40000, 40000, .ok "h8" [7]⟩] [] (some 60) false false false
        fsA (some []) 0).net = 2 :=
  ⟨by decide,
    ((constructor_fetches_every_file shaLen vcTrue [("r", "a.py"), ("r", "b.py")]
      [envGoodA, ⟨40000, 40000, .ok "h8" [7]⟩] [] 60 false false fsA (some []) 0
      (by decide) (by decide) (Or.inl (by decide))).1).1,
    ((constructor_fetches_every_file shaLen vcTrue [("r", "a.py"), ("r", "b.py")]
      [envGoodA, ⟨40000, 40000, .ok "h8" [7]⟩] [] 60 false false fsA (some []) 0
      (by decide) (by decide) (Or.inl (by decide))).1).2.1⟩

/-! ## Machinery for the promotion round-trip -/

theorem allDistinct_cons (a : String) (l : List String)
    (h : allDistinct (a :: l) = true) :
    (∀ b ∈ l, a ≠ b) ∧ allDistinct l = true := by
  simpa only [allDistinct, Bool.and_eq_true, List.all_eq_true, bne_iff_ne] using h

theorem mem_tagsList : ∀ (names : List String) (b : String), b ∈ names →
    b ∈ tagsList names ∧ LATEST_FILE_PFX ++ b ∈ tagsList names ∧
    ERROR_FILE_PFX ++ b ∈ tagsList names ∧ BACKUP_FILE_PFX ++ b ∈ tagsList names := by
  intro names
  induction names with
  | nil => intro b hb; exact absurd hb (List.not_mem_nil b)
  | cons a rest ih =>
      intro b hb
      rw [List.mem_cons] at hb
      rcases hb with rfl | hb
      · refine ⟨?_, ?_, ?_, ?_⟩ <;> simp [tagsList]
      · obtain ⟨h1, h2, h3, h4⟩ := ih b hb
        refine ⟨?_, ?_, ?_, ?_⟩ <;> simp [tagsList, h1, h2, h3, h4]

theorem distinctFiles_cons (n : String) (names : List String)
    (h : distinctFiles (n :: names) = true) :
    distinctFiles names = true ∧
    (∀ t ∈ tagsList names,
      n ≠ t ∧ LATEST_FILE_PFX ++ n ≠ t ∧ ERROR_FILE_PFX ++ n ≠ t ∧
        BACKUP_FILE_PFX ++ n ≠ t) ∧
    n ≠ LATEST_FILE_PFX ++ n ∧ n ≠ ERROR_FILE_PFX ++ n ∧ n ≠ BACKUP_FILE_PFX ++ n ∧
    LATEST_FILE_PFX ++ n ≠ ERROR_FILE_PFX ++ n ∧
    LATEST_FILE_PFX ++ n ≠ BACKUP_FILE_PFX ++ n ∧
    ERROR_FILE_PFX ++ n ≠ BACKUP_FILE_PFX ++ n := by
  simp only [distinctFiles, tagsList] at h
  obtain ⟨hn, h⟩ := allDistinct_cons _ _ h
  obtain ⟨hL, h⟩ := allDistinct_cons _ _ h
  obtain ⟨hE, h⟩ := allDistinct_cons _ _ h
  obtain ⟨hB, h⟩ := allDistinct_cons _ _ h
  refine ⟨h, ?_, ?_, ?_, ?_, ?_, ?_, ?_⟩
  · intro t ht
    exact ⟨hn t (by simp [ht]), hL t (by simp [ht]), hE t (by simp [ht]), hB t ht⟩
  · exact hn (LATEST_FILE_PFX ++ n) (by simp)
  · exact hn (ERROR_FILE_PFX ++ n) (by simp)
  · exact hn (BACKUP_FILE_PFX ++ n) (by simp)
  · exact hL (ERROR_FILE_PFX ++ n) (by simp)
  · exact hL (BACKUP_FILE_PFX ++ n) (by simp)
  · exact hE (BACKUP_FILE_PFX ++ n) (by simp)

theorem backupFs_frame (m : OTAFileMetadata) (fs : FS) (k : String)
    (h1 : k ≠ m.filename) (h2 : k ≠ BACKUP_FILE_PFX ++ m.filename) :
    backupFs m fs k = fs k := by
  unfold backupFs
  by_cases hb : m.save_backups && (fs m.filename).isSome
  · rw [if_pos hb]
    simp [FS.renameF, h1, h2]
  · rw [if_neg hb]

theorem set_current_filename (m : OTAFileMetadata) (fs : FS) :
    (set_current_to_latest m fs).meta.filename = m.filename := by
  unfold set_current_to_latest
  cases hlf : m.latest_file with
  | none => rfl
  | some lf => by_cases h : ((backupFs m fs) lf).isSome <;> simp [h]

theorem update_latest_frame (valid_code : Bytes → Bool) (env : FetchEnv)
    (m : OTAFileMetadata) (fs : FS) (k : String)
    (h1 : k ≠ LATEST_FILE_PFX ++ m.filename)
    (h2 : k ≠ ERROR_FILE_PFX ++ m.filename) :
    (update_latest valid_code env m fs).fs k = fs k := by
  by_cases hb : env.memBefore < OTA_MINIMUM_MEMORY
  · rw [update_latest_memBefore _ _ _ _ hb]
  · cases hresp : env.response with
    | jsonError => rw [update_latest_jsonError _ _ _ _ hb hresp]
    | memoryError => rw [update_latest_memoryError _ _ _ _ hb hresp]
    | noSha =>
        by_cases ha : env.memAfter < OTA_MINIMUM_MEMORY
        · simp [update_latest, hb, ha, hresp]
        · rw [update_latest_noSha _ _ _ _ hb ha hresp]
    | ok sha content =>
        by_cases ha : env.memAfter < OTA_MINIMUM_MEMORY
        · rw [update_latest_ok_memAfter _ _ _ _ sha content hb ha hresp]
        · by_cases hdiff : m.current = some sha
          · rw [update_latest_ok_same _ _ _ _ sha content hb ha hresp hdiff]
          · cases hv : valid_code content with
            | true =>
                rw [update_latest_ok_new_valid _ _ _ _ sha content hb ha hresp hdiff hv]
                simp [FS.write, h1]
            | false =>
                rw [update_latest_ok_new_invalid _ _ _ _ sha content hb ha hresp hdiff hv]
                simp [FS.renameF, FS.write, h1, h2]

theorem stagedHashOk_transport (sha1_hex : Bytes → String) (m : OTAFileMetadata)
    (fs fs2 : FS) (hwf : wellFormedStaged m = true)
    (h : stagedHashOk sha1_hex m fs)
    (hagree : fs2 (LATEST_FILE_PFX ++ m.filename) = fs (LATEST_FILE_PFX ++ m.filename)) :
    stagedHashOk sha1_hex m fs2 := by
  intro hnv lf hlf
  have hlf2 : lf = LATEST_FILE_PFX ++ m.filename := by
    simp only [wellFormedStaged, hlf] at hwf
    exact beq_iff_eq.mp hwf
  subst hlf2
  obtain ⟨c, hc, hs⟩ := h hnv _ hlf
  exact ⟨c, by rw [hagree]; exact hc, hs⟩

theorem update_latest_wellFormed (valid_code : Bytes → Bool) (env : FetchEnv)
    (m : OTAFileMetadata) (fs : FS) (h : wellFormedStaged m = true) :
    wellFormedStaged (update_latest valid_code env m fs).meta = true := by
  by_cases hb : env.memBefore < OTA_MINIMUM_MEMORY
  · rw [update_latest_memBefore _ _ _ _ hb]; exact h
  · cases hresp : env.response with
    | jsonError => rw [update_latest_jsonError _ _ _ _ hb hresp]; exact h
    | memoryError => rw [update_latest_memoryError _ _ _ _ hb hresp]; exact h
    | noSha =>
        by_cases ha : env.memAfter < OTA_MINIMUM_MEMORY
        · simp only [update_latest, hb, ha, hresp]
          simpa using h
        · rw [update_latest_noSha _ _ _ _ hb ha hresp]; exact h
    | ok sha content =>
        by_cases ha : env.memAfter < OTA_MINIMUM_MEMORY
        · rw [update_latest_ok_memAfter _ _ _ _ sha content hb ha hresp]; exact h
        · by_cases hdiff : m.current = some sha
          · rw [update_latest_ok_same _ _ _ _ sha content hb ha hresp hdiff]; exact h
          · cases hv : valid_code content with
            | true =>
                rw [update_latest_ok_new_valid _ _ _ _ sha content hb ha hresp hdiff hv]
                simp [wellFormedStaged]
            | false =>
                rw [update_latest_ok_new_invalid _ _ _ _ sha content hb ha hresp hdiff hv]
                rfl

theorem update_latest_stagedHashOk (sha1_hex : Bytes → String)
    (valid_code : Bytes → Bool) (env : FetchEnv) (m : OTAFileMetadata) (fs : FS)
    (hce : consistentEnv sha1_hex env = true) (h : stagedHashOk sha1_hex m fs) :
    stagedHashOk sha1_hex (update_latest valid_code env m fs).meta
      (update_latest valid_code env m fs).fs := by
  by_cases hb : env.memBefore < OTA_MINIMUM_MEMORY
  · rw [update_latest_memBefore _ _ _ _ hb]; exact h
  · cases hresp : env.response with
    | jsonError => rw [update_latest_jsonError _ _ _ _ hb hresp]; exact h
    | memoryError => rw [update_latest_memoryError _ _ _ _ hb hresp]; exact h
    | noSha =>
        by_cases ha : env.memAfter < OTA_MINIMUM_MEMORY
        · simp only [update_latest, hb, ha, hresp]
          simpa using h
        · rw [update_latest_noSha _ _ _ _ hb ha hresp]; exact h
    | ok sha content =>
        by_cases ha : env.memAfter < OTA_MINIMUM_MEMORY
        · rw [update_latest_ok_memAfter _ _ _ _ sha content hb ha hresp]; exact h
        · by_cases hdiff : m.current = some sha
          · rw [update_latest_ok_same _ _ _ _ sha content hb ha hresp hdiff]
            intro hnv
            exact absurd hnv (by simp [new_version_available, hdiff])
          · cases hv : valid_code content with
            | false =>
                rw [update_latest_ok_new_invalid _ _ _ _ sha content hb ha hresp hdiff hv]
                intro hnv lf hlf
                exact absurd hlf (by simp)
            | true =>
                rw [update_latest_ok_new_valid _ _ _ _ sha content hb ha hresp hdiff hv]
                intro hnv lf hlf
                have hlf2 : LATEST_FILE_PFX ++ m.filename = lf := by simpa using hlf
                subst hlf2
                refine ⟨content, by simp [FS.write], ?_⟩
                simp only [consistentEnv, hresp] at hce
                have : sha = sha1_hex (blobPayload content) := beq_iff_eq.mp hce
                simp [this]

theorem fetch_loop_frame (valid_code : Bytes → Bool) :
    ∀ (files : List OTAFileMetadata) (envs : List FetchEnv) (fs : FS) (k : String),
      (∀ m ∈ files, k ≠ LATEST_FILE_PFX ++ m.filename ∧
        k ≠ ERROR_FILE_PFX ++ m.filename) →
      (fetch_loop valid_code files envs fs).fs k = fs k := by
  intro files
  induction files with
  | nil => intro envs fs k _; simp [fetch_loop]
  | cons m rest ih =>
      intro envs fs k hk
      cases envs with
      | nil => simp [fetch_loop]
      | cons e es =>
          have hm := hk m (List.mem_cons_self m rest)
          have hframe := update_latest_frame valid_code e m fs k hm.1 hm.2
          simp only [fetch_loop]
          cases herr : (update_latest valid_code e m fs).err with
          | some e2 => exact hframe
          | none =>
              have hrec := ih es (update_latest valid_code e m fs).fs k
                (fun m2 hm2 => hk m2 (List.mem_cons_of_mem m hm2))
              exact hrec.trans hframe

theorem fetch_loop_invariant (sha1_hex : Bytes → String) (valid_code : Bytes → Bool) :
    ∀ (files : List OTAFileMetadata) (envs : List FetchEnv) (fs : FS),
      envs.all (consistentEnv sha1_hex) = true →
      distinctFiles (files.map (fun m => m.filename)) = true →
      (∀ m ∈ files, wellFormedStaged m = true) →
      (∀ m ∈ files, stagedHashOk sha1_hex m fs) →
      ((fetch_loop valid_code files envs fs).files.map (fun m => m.filename) =
        files.map (fun m => m.filename)) ∧
      (∀ m2 ∈ (fetch_loop valid_code files envs fs).files, wellFormedStaged m2 = true) ∧
      (∀ m2 ∈ (fetch_loop valid_code files envs fs).files,
        stagedHashOk sha1_hex m2 (fetch_loop valid_code files envs fs).fs) := by
  intro files
  induction files with
  | nil =>
      intro envs fs _ _ _ _
      simp only [fetch_loop]
      refine ⟨trivial, ?_, ?_⟩ <;> intro m2 hm2 <;> exact absurd hm2 (List.not_mem_nil m2)
  | cons m rest ih =>
      intro envs fs hcons hdist hwf hsh
      cases envs with
      | nil => simp only [fetch_loop]; exact ⟨trivial, hwf, hsh⟩
      | cons e es =>
          simp only [List.all_cons, Bool.and_eq_true] at hcons
          obtain ⟨hce, hces⟩ := hcons
          obtain ⟨hdistT, htags, _⟩ :=
            distinctFiles_cons m.filename (rest.map (fun m2 => m2.filename))
              (by simpa using hdist)
          have hwfm := hwf m (List.mem_cons_self m rest)
          have hwfR : ∀ m2 ∈ rest, wellFormedStaged m2 = true :=
            fun m2 hm2 => hwf m2 (List.mem_cons_of_mem m hm2)
          have hfn := update_latest_filename valid_code e m fs
          have rwf := update_latest_wellFormed valid_code e m fs hwfm
          have rsh := update_latest_stagedHashOk sha1_hex valid_code e m fs hce
            (hsh m (List.mem_cons_self m rest))
          -- staged names of the tail files are untouched by the head fetch
          have hshR : ∀ m2 ∈ rest,
              stagedHashOk sha1_hex m2 (update_latest valid_code e m fs).fs := by
            intro m2 hm2
            have hmem : LATEST_FILE_PFX ++ m2.filename ∈
                tagsList (rest.map (fun m3 => m3.filename)) :=
              (mem_tagsList _ m2.filename (List.mem_map_of_mem _ hm2)).2.1
            have ht := htags _ hmem
            refine stagedHashOk_transport sha1_hex m2 fs _ (hwfR m2 hm2)
              (hsh m2 (List.mem_cons_of_mem m hm2)) ?_
            exact update_latest_frame valid_code e m fs _
              (Ne.symm ht.2.1) (Ne.symm ht.2.2.1)
          simp only [fetch_loop]
          cases herr : (update_latest valid_code e m fs).err with
          | some e2 =>
              refine ⟨?_, ?_, ?_⟩
              · simp [hfn]
              · intro m2 hm2
                rw [List.mem_cons] at hm2
                rcases hm2 with rfl | hm2
                · exact rwf
                · exact hwfR m2 hm2
              · intro m2 hm2
                rw [List.mem_cons] at hm2
                rcases hm2 with rfl | hm2
                · exact rsh
                · exact hshR m2 hm2
          | none =>
              obtain ⟨ihm, ihwf, ihsh⟩ := ih es (update_latest valid_code e m fs).fs
                hces hdistT hwfR hshR
              refine ⟨?_, ?_, ?_⟩
              · simp [hfn, ihm]
              · intro m2 hm2
                rw [List.mem_cons] at hm2
                rcases hm2 with rfl | hm2
                · exact rwf
                · exact ihwf m2 hm2
              · intro m2 hm2
                rw [List.mem_cons] at hm2
                rcases hm2 with rfl | hm2
                · -- the head's staged name survives the tail fetches
                  refine stagedHashOk_transport sha1_hex _ _ _ rwf rsh ?_
                  apply fetch_loop_frame
                  intro m3 hm3
                  have hmem := (mem_tagsList _ m3.filename
                    (List.mem_map_of_mem _ hm3))
                  have ht1 := htags _ hmem.2.1
                  have ht2 := htags _ hmem.2.2.1
                  rw [hfn]
                  exact ⟨ht1.2.1, ht2.2.1⟩
                · exact ihsh m2 hm2

theorem promote_loop_length :
    ∀ (ms : List OTAFileMetadata) (fs : FS) (p : Option Store),
      (promote_loop ms fs p).files.length = ms.length := by
  intro ms
  induction ms with
  | nil => intro fs p; rfl
  | cons m rest ih =>
      intro fs p
      simp only [promote_loop]
      by_cases hnv : new_version_available m = true
      · simp only [hnv, if_true]
        cases herr : (set_current_to_latest m fs).err with
        | some e => simp
        | none =>
            cases hdb : (db_update p (set_current_to_latest m fs).meta.filename
                ⟨(set_current_to_latest m fs).meta.latest,
                  (set_current_to_latest m fs).meta.current⟩).2 with
            | some e => simp
            | none => simp [ih]
      · simp only [hnv, if_false]
        simp [ih]

theorem promote_loop_fs_frame :
    ∀ (ms : List OTAFileMetadata) (fs : FS) (p : Option Store) (k : String),
      (∀ m ∈ ms, wellFormedStaged m = true) →
      (∀ m ∈ ms, k ≠ m.filename ∧ k ≠ LATEST_FILE_PFX ++ m.filename ∧
        k ≠ BACKUP_FILE_PFX ++ m.filename) →
      (promote_loop ms fs p).fs k = fs k := by
  intro ms
  induction ms with
  | nil => intro fs p k _ _; rfl
  | cons m rest ih =>
      intro fs p k hwf hk
      obtain ⟨hk1, hk2, hk3⟩ := hk m (List.mem_cons_self m rest)
      have hwfm := hwf m (List.mem_cons_self m rest)
      have hwfR : ∀ m2 ∈ rest, wellFormedStaged m2 = true :=
        fun m2 hm2 => hwf m2 (List.mem_cons_of_mem m hm2)
      have hkR : ∀ m2 ∈ rest, k ≠ m2.filename ∧ k ≠ LATEST_FILE_PFX ++ m2.filename ∧
          k ≠ BACKUP_FILE_PFX ++ m2.filename :=
        fun m2 hm2 => hk m2 (List.mem_cons_of_mem m hm2)
      have hbk : backupFs m fs k = fs k := backupFs_frame m fs k hk1 hk3
      simp only [promote_loop]
      by_cases hnv : new_version_available m = true
      · simp only [hnv, if_true]
        cases hlf : m.latest_file with
        | none =>
            rw [set_current_none m fs hlf]
            exact hbk
        | some lf =>
            have hlfL : lf = LATEST_FILE_PFX ++ m.filename := by
              simp only [wellFormedStaged, hlf] at hwfm
              exact beq_iff_eq.mp hwfm
            have hk2l : k ≠ lf := by rw [hlfL]; exact hk2
            cases hex : backupFs m fs lf with
            | none =>
                rw [set_current_missing m fs lf hlf hex]
                exact hbk
            | some c =>
                rw [set_current_ok m fs lf c hlf hex]
                have hsfs : FS.renameF (backupFs m fs) lf m.filename k = fs k := by
                  simp only [FS.renameF, if_neg hk1, if_neg hk2l]
                  exact hbk
                cases hdb : (db_update p
                    ({ m with current := m.latest } : OTAFileMetadata).filename
                    ⟨({ m with current := m.latest } : OTAFileMetadata).latest,
                      ({ m with current := m.latest } : OTAFileMetadata).current⟩).2 with
                | some e => exact hsfs
                | none =>
                    exact (ih _ _ k hwfR hkR).trans hsfs
      · simp only [hnv, if_false]
        exact ih fs p k hwfR hkR

theorem promote_loop_store_frame :
    ∀ (ms : List OTAFileMetadata) (fs : FS) (d : Store) (k : String),
      (∀ m ∈ ms, m.filename ≠ k) →
      (promote_loop ms fs (some d)).err = none →
      ∃ d2, (promote_loop ms fs (some d)).store = some d2 ∧
        storeLookup d2 k = storeLookup d k := by
  intro ms
  induction ms with
  | nil => intro fs d k _ _; exact ⟨d, rfl, rfl⟩
  | cons m rest ih =>
      intro fs d k hk herr
      have hkm := hk m (List.mem_cons_self m rest)
      have hkR : ∀ m2 ∈ rest, m2.filename ≠ k :=
        fun m2 hm2 => hk m2 (List.mem_cons_of_mem m hm2)
      by_cases hnv : new_version_available m = true
      · simp only [promote_loop, hnv, if_true] at herr ⊢
        cases hserr : (set_current_to_latest m fs).err with
        | some e => rw [hserr] at herr; simp at herr
        | none =>
            rw [hserr] at herr
            simp only [db_update] at herr ⊢
            have hfn : (set_current_to_latest m fs).meta.filename ≠ k := by
              rw [set_current_filename m fs]; exact hkm
            obtain ⟨d2, hst, hlk⟩ := ih (set_current_to_latest m fs).fs
              (dict_update d (set_current_to_latest m fs).meta.filename
                ⟨(set_current_to_latest m fs).meta.latest,
                  (set_current_to_latest m fs).meta.current⟩) k hkR (by simpa using herr)
            refine ⟨d2, by simpa using hst, ?_⟩
            rw [hlk]
            exact storeLookup_dict_update_other d _ k _ (Ne.symm hfn)
      · simp only [promote_loop, hnv, if_false] at herr ⊢
        exact ih fs d k hkR herr

theorem promote_loop_promoted (sha1_hex : Bytes → String) :
    ∀ (ms : List OTAFileMetadata) (fs : FS) (p : Option Store),
      distinctFiles (ms.map (fun m => m.filename)) = true →
      (∀ m ∈ ms, wellFormedStaged m = true) →
      (∀ m ∈ ms, stagedHashOk sha1_hex m fs) →
      (promote_loop ms fs p).err = none →
      ∀ i (hi : i < ms.length),
        new_version_available (ms.get ⟨i, hi⟩) = true →
        ∃ s d2,
          (ms.get ⟨i, hi⟩).latest = some s ∧
          (promote_loop ms fs p).store = some d2 ∧
          storeLookup d2 (ms.get ⟨i, hi⟩).filename = some ⟨some s, some s⟩ ∧
          calculate_github_sha sha1_hex (promote_loop ms fs p).fs
            (ms.get ⟨i, hi⟩).filename = s ∧
          (promote_loop ms fs p).files.get? i =
            some { ms.get ⟨i, hi⟩ with current := some s } := by
  intro ms
  induction ms with
  | nil => intro fs p _ _ _ _ i hi; exact absurd hi (by simp)
  | cons m rest ih =>
      intro fs p hdist hwf hsh herr i hi hnvi
      obtain ⟨hdistT, htags, hnL, hnE, hnB, hLE, hLB, hEB⟩ :=
        distinctFiles_cons m.filename (rest.map (fun m2 => m2.filename))
          (by simpa using hdist)
      have hwfm := hwf m (List.mem_cons_self m rest)
      have hwfR : ∀ m2 ∈ rest, wellFormedStaged m2 = true :=
        fun m2 hm2 => hwf m2 (List.mem_cons_of_mem m hm2)
      by_cases hnv : new_version_available m = true
      · -- the head file has a pending update and is promoted first
        cases hlf : m.latest_file with
        | none =>
            exfalso
            simp only [promote_loop, hnv, if_true, set_current_none m fs hlf] at herr
            simp at herr
        | some lf =>
            have hlfL : lf = LATEST_FILE_PFX ++ m.filename := by
              simp only [wellFormedStaged, hlf] at hwfm
              exact beq_iff_eq.mp hwfm
            subst hlfL
            obtain ⟨c, hc, hhash⟩ := hsh m (List.mem_cons_self m rest) hnv _ hlf
            have hbk : backupFs m fs (LATEST_FILE_PFX ++ m.filename) = some c := by
              rw [backupFs_frame m fs _ (Ne.symm hnL) hLB]; exact hc
            have hsc := set_current_ok m fs _ c hlf hbk
            simp only [promote_loop, hnv, if_true, hsc] at herr ⊢
            cases p with
            | none =>
                exfalso
                simp [db_update, db_delete] at herr
            | some d =>
                simp only [db_update] at herr ⊢
                -- the filesystem after the head's promotion
                have hsfsfn : FS.renameF (backupFs m fs)
                    (LATEST_FILE_PFX ++ m.filename) m.filename m.filename = some c := by
                  simp [FS.renameF, hbk]
                cases i with
                | zero =>
                    have hkf : ∀ m2 ∈ rest, m2.filename ≠ m.filename := by
                      intro m2 hm2
                      exact Ne.symm ((htags m2.filename
                        (mem_tagsList _ m2.filename (List.mem_map_of_mem _ hm2)).1).1)
                    obtain ⟨d2, hst, hlk⟩ := promote_loop_store_frame rest _ _
                      m.filename hkf (by simpa using herr)
                    have hkcond : ∀ m2 ∈ rest, m.filename ≠ m2.filename ∧
                        m.filename ≠ LATEST_FILE_PFX ++ m2.filename ∧
                        m.filename ≠ BACKUP_FILE_PFX ++ m2.filename := by
                      intro m2 hm2
                      have hmem := mem_tagsList _ m2.filename (List.mem_map_of_mem _ hm2)
                      exact ⟨(htags _ hmem.1).1, (htags _ hmem.2.1).1,
                        (htags _ hmem.2.2.2).1⟩
                    have hffs := promote_loop_fs_frame rest
                      (FS.renameF (backupFs m fs)
                        (LATEST_FILE_PFX ++ m.filename) m.filename)
                      (some (dict_update d m.filename ⟨m.latest, m.latest⟩))
                      m.filename hwfR hkcond
                    refine ⟨sha1_hex (blobPayload c), d2, ?_, ?_, ?_, ?_, ?_⟩
                    · simpa using hhash
                    · simpa using hst
                    · rw [show ((m :: rest).get ⟨0, hi⟩).filename = m.filename by simp]
                      rw [hlk, storeLookup_dict_update_self]
                      simp [hhash]
                    · rw [show ((m :: rest).get ⟨0, hi⟩).filename = m.filename by simp]
                      rw [calculate_github_sha]
                      rw [hffs, hsfsfn]
                    · simp [hhash]
                | succ j =>
                    have hjlt : j < rest.length := by
                      simpa [Nat.succ_lt_succ_iff] using hi
                    have hshR : ∀ m2 ∈ rest, stagedHashOk sha1_hex m2
                        (FS.renameF (backupFs m fs)
                          (LATEST_FILE_PFX ++ m.filename) m.filename) := by
                      intro m2 hm2
                      have hmem := mem_tagsList _ m2.filename (List.mem_map_of_mem _ hm2)
                      refine stagedHashOk_transport sha1_hex m2 fs _ (hwfR m2 hm2)
                        (hsh m2 (List.mem_cons_of_mem m hm2)) ?_
                      have h1 : LATEST_FILE_PFX ++ m2.filename ≠ m.filename :=
                        Ne.symm (htags _ hmem.2.1).1
                      have h2 : LATEST_FILE_PFX ++ m2.filename ≠
                          LATEST_FILE_PFX ++ m.filename :=
                        Ne.symm (htags _ hmem.2.1).2.1
                      have h3 : LATEST_FILE_PFX ++ m2.filename ≠
                          BACKUP_FILE_PFX ++ m.filename :=
                        Ne.symm (htags _ hmem.2.1).2.2.2
                      simp only [FS.renameF, if_neg h1, if_neg h2]
                      exact backupFs_frame m fs _ h1 h3
                    obtain ⟨s, d2, hlat, hst, hlk, hcalc, hget⟩ :=
                      ih _ _ hdistT hwfR hshR (by simpa using herr) j hjlt
                        (by simpa using hnvi)
                    refine ⟨s, d2, ?_, ?_, ?_, ?_, ?_⟩
                    · simpa using hlat
                    · simpa using hst
                    · simpa using hlk
                    · simpa using hcalc
                    · simpa using hget
      · -- the head file is skipped
        cases i with
        | zero =>
            exfalso
            exact hnv (by simpa using hnvi)
        | succ j =>
            have hjlt : j < rest.length := by
              simpa [Nat.succ_lt_succ_iff] using hi
            have hshR : ∀ m2 ∈ rest, stagedHashOk sha1_hex m2 fs :=
              fun m2 hm2 => hsh m2 (List.mem_cons_of_mem m hm2)
            simp only [promote_loop, hnv, if_false] at herr ⊢
            obtain ⟨s, d2, hlat, hst, hlk, hcalc, hget⟩ :=
              ih fs p hdistT hwfR hshR herr j hjlt (by simpa using hnvi)
            refine ⟨s, d2, ?_, ?_, ?_, ?_, ?_⟩
            · simpa using hlat
            · simpa using hst
            · simpa using hlk
            · simpa using hcalc
            · simpa using hget

/-- C5: after a reconciliation pass (`_check_for_updates`) that raised
nothing, for every file promoted in that pass (pending update after the
fetch phase): its fingerprint was advanced to the fetched `latest`, the
persisted store's entry for that filename holds exactly that fingerprint as
both `current` and `latest`, and recomputing the content fingerprint of
the live file on disk (`calculate_github_sha`) returns that same value
(round-trip). Hypotheses: the tracked names are admissible (pairwise
distinct, including their staging/quarantine/backup names), staged
references are well-formed and hash-consistent on entry, and the remote
collaborator reports truthful fingerprints (spec §6). -/
theorem promoted_files_roundtrip (sha1_hex : Bytes → String) (valid_code : Bytes → Bool)
    (files : List OTAFileMetadata) (envs : List FetchEnv) (fs : FS) (store : Option Store)
    (hdist : distinctFiles (files.map (fun m => m.filename)) = true)
    (hwf : ∀ m ∈ files, wellFormedStaged m = true)
    (hsh : ∀ m ∈ files, stagedHashOk sha1_hex m fs)
    (hcons : envs.all (consistentEnv sha1_hex) = true)
    (hferr : (fetch_loop valid_code files envs fs).err = none)
    (herr : (check_for_updates valid_code files envs fs store).err = none) :
    ∀ i (hi : i < (fetch_loop valid_code files envs fs).files.length),
      new_version_available ((fetch_loop valid_code files envs fs).files.get ⟨i, hi⟩)
        = true →
      ∃ s d2,
        ((fetch_loop valid_code files envs fs).files.get ⟨i, hi⟩).latest = some s ∧
        (check_for_updates valid_code files envs fs store).store = some d2 ∧
        storeLookup d2
          (((fetch_loop valid_code files envs fs).files.get ⟨i, hi⟩).filename) =
          some ⟨some s, some s⟩ ∧
        calculate_github_sha sha1_hex
          (check_for_updates valid_code files envs fs store).fs
          (((fetch_loop valid_code files envs fs).files.get ⟨i, hi⟩).filename) = s ∧
        (check_for_updates valid_code files envs fs store).files.get? i =
          some { (fetch_loop valid_code files envs fs).files.get ⟨i, hi⟩ with
            current := some s } := by
  intro i hi hnv
  obtain ⟨hmap, hwf2, hsh2⟩ := fetch_loop_invariant sha1_hex valid_code files envs fs
    hcons hdist hwf hsh
  have hfu := fetch_updates_of_err_none valid_code files envs fs hferr
  have hdist2 : distinctFiles ((fetch_loop valid_code files envs fs).files.map
      (fun m => m.filename)) = true := by rw [hmap]; exact hdist
  have hcfu : check_for_updates valid_code files envs fs store =
      ⟨(promote_loop (fetch_loop valid_code files envs fs).files
          (fetch_loop valid_code files envs fs).fs store).files,
        (promote_loop (fetch_loop valid_code files envs fs).files
          (fetch_loop valid_code files envs fs).fs store).fs,
        (promote_loop (fetch_loop valid_code files envs fs).files
          (fetch_loop valid_code files envs fs).fs store).store,
        (fetch_loop valid_code files envs fs).net,
        (promote_loop (fetch_loop valid_code files envs fs).files
          (fetch_loop valid_code files envs fs).fs store).changed,
        (promote_loop (fetch_loop valid_code files envs fs).files
          (fetch_loop valid_code files envs fs).fs store).err⟩ := by
    simp [check_for_updates, hfu, hferr]
  have herr2 : (promote_loop (fetch_loop valid_code files envs fs).files
      (fetch_loop valid_code files envs fs).fs store).err = none := by
    rw [hcfu] at herr; exact herr
  obtain ⟨s, d2, h1, h2, h3, h4, h5⟩ := promote_loop_promoted sha1_hex
    (fetch_loop valid_code files envs fs).files
    (fetch_loop valid_code files envs fs).fs
    store hdist2 hwf2 hsh2 herr2 i hi hnv
  exact ⟨s, d2, h1, by rw [hcfu]; exact h2, h3, by rw [hcfu]; exact h4,
    by rw [hcfu]; exact h5⟩

/-- Witness for C5: one tracked file `a.py` (current `h1`), remote
truthfully reports `h10` with content `[1,2,3]`; the pass promotes it and
the store entry and live-file fingerprint round-trip. -/
theorem promoted_files_roundtrip_witness :
    (fetch_loop vcTrue [metaA] [envTruthful] fsA).err = none ∧
    ∃ s d2,
      ((fetch_loop vcTrue [metaA] [envTruthful] fsA).files.get
          ⟨0, by decide⟩).latest = some s ∧
      (check_for_updates vcTrue [metaA] [envTruthful] fsA
          (some [("a.py", ⟨some "h1", some "h1"⟩)])).store = some d2 ∧
      storeLookup d2 (((fetch_loop vcTrue [metaA] [envTruthful] fsA).files.get
          ⟨0, by decide⟩).filename) = some ⟨some s, some s⟩ ∧
      calculate_github_sha shaLen (check_for_updates vcTrue [metaA] [envTruthful] fsA
          (some [("a.py", ⟨some "h1", some "h1"⟩)])).fs
        (((fetch_loop vcTrue [metaA] [envTruthful] fsA).files.get
          ⟨0, by decide⟩).filename) = s ∧
      (check_for_updates vcTrue [metaA] [envTruthful] fsA
          (some [("a.py", ⟨some "h1", some "h1"⟩)])).files.get? 0 =
        some { (fetch_loop vcTrue [metaA] [envTruthful] fsA).files.get
          ⟨0, by decide⟩ with current := some s } :=
  ⟨by decide,
    promoted_files_roundtrip shaLen vcTrue [metaA] [envTruthful] fsA
      (some [("a.py", ⟨some "h1", some "h1"⟩)])
      (by decide)
      (by decide)
      (by
        intro m hm hnv lf hlf
        rw [List.mem_singleton] at hm
        subst hm
        exact absurd hlf (by simp [metaA]))
      (by decide) (by decide) (by decide) 0 (by decide) (by decide)⟩
